import Mathlib

set_option maxRecDepth 100000

/-!
Verification of the strategy-evaluation and trade-lifecycle engine of an
options backtester. The definitions below are a shallow embedding of the
Python source: `engine/trade.py`, `engine/signals.py`, `engine/backtest.py`,
`indicators/__init__.py`, `indicators/rsi.py`, `engine/data_loader.py` and
`forward/tick_checker.py`. Machine floats are modelled by exact rationals,
pandas NaN/missing values by `Option`, raised exceptions by `Except`, and
timestamps by natural numbers (minutes since an epoch, so that
`time_only = dt % 1440` and `date = dt / 1440`).
-/

namespace Backtest

/-- One part of a staggered entry (`PositionPart` in `engine/trade.py`). -/
structure PositionPart where
  level_num : ℕ
  entry_time : ℕ
  entry_price : ℚ
  capital_pct : ℚ
  deriving Repr, DecidableEq

/-- One staggered entry level with its target price (`EntryLevel`). -/
structure EntryLevel where
  level_num : ℕ
  pct_from_base : ℚ
  capital_pct : ℚ
  target_price : ℚ
  filled : Bool
  deriving Repr, DecidableEq

/-- One row of the strategy's `entry_levels` config list. -/
structure LevelCfg where
  pct_above_base : ℚ
  capital_pct : ℚ
  deriving Repr, DecidableEq

/-- The `Trade` aggregate of `engine/trade.py`: one full trade cycle on one
contract.  Exit fields are `Option` because they are `None` until closed. -/
structure Trade where
  signal_time : ℕ
  base_price : ℚ
  option_type : String
  strike : ℚ
  expiry_type : String
  expiry_code : ℤ
  instrument : String
  direction : String
  lot_size : ℕ
  entry_levels : List EntryLevel
  parts : List PositionPart
  exit_time : Option ℕ
  exit_price : Option ℚ
  exit_reason : Option String
  status : String
  total_pnl : ℚ
  total_pnl_pct : ℚ
  deriving Repr, DecidableEq

/-- `Trade.__init__`: build the entry levels from the config (sell: target
`base*(1+pct/100)`, buy: `base*(1-pct/100)`), all unfilled, status
`WAITING_ENTRY`. -/
def Trade.init (signal_time : ℕ) (base_price : ℚ) (option_type : String)
    (strike : ℚ) (expiry_type : String) (expiry_code : ℤ)
    (instrument : String) (direction : String)
    (entry_levels_config : List LevelCfg) (lot_size : ℕ) : Trade :=
  let levels := entry_levels_config.enum.map (fun p =>
    let pct := p.2.pct_above_base
    let target := if direction = "sell"
      then base_price * (1 + pct / 100)
      else base_price * (1 - pct / 100)
    EntryLevel.mk (p.1 + 1) pct p.2.capital_pct target false)
  { signal_time := signal_time
    base_price := base_price
    option_type := option_type
    strike := strike
    expiry_type := expiry_type
    expiry_code := expiry_code
    instrument := instrument
    direction := direction
    lot_size := lot_size
    entry_levels := levels
    parts := []
    exit_time := none
    exit_price := none
    exit_reason := none
    status := "WAITING_ENTRY"
    total_pnl := 0
    total_pnl_pct := 0 }

/-- `Trade.num_levels`. -/
def Trade.num_levels (t : Trade) : ℕ := t.entry_levels.length

/-- `Trade.get_next_unfilled_level`: first unfilled level in list order. -/
def Trade.get_next_unfilled_level (t : Trade) : Option EntryLevel :=
  t.entry_levels.find? (fun l => !l.filled)

/-- Mark the first unfilled level as filled.  Python mutates the level object
passed to `add_entry`; at every call site in the source that object is the
result of `get_next_unfilled_level`, i.e. the first unfilled level, which is
what this function marks. -/
def markFirstUnfilled : List EntryLevel → List EntryLevel
  | [] => []
  | l :: ls =>
    if l.filled then l :: markFirstUnfilled ls
    else { l with filled := true } :: ls

/-- `Trade.add_entry`: append a `PositionPart` for the given level, mark the
level filled, and recompute the status. -/
def Trade.add_entry (t : Trade) (level : EntryLevel) (entry_time : ℕ)
    (entry_price : ℚ) : Trade :=
  let parts' := t.parts ++
    [PositionPart.mk level.level_num entry_time entry_price level.capital_pct]
  let levels' := markFirstUnfilled t.entry_levels
  let all_filled := levels'.all (fun l => l.filled)
  { t with parts := parts', entry_levels := levels',
           status := if all_filled then "FULL_POSITION" else "PARTIAL_POSITION" }

/-- `Trade.get_avg_entry_price`: capital-weighted mean of the filled parts;
`none` when no part is filled or the total weight is not positive. -/
def Trade.get_avg_entry_price (t : Trade) : Option ℚ :=
  if t.parts.isEmpty then none
  else
    let total_weighted := (t.parts.map (fun p => p.entry_price * p.capital_pct)).sum
    let total_weight := (t.parts.map (fun p => p.capital_pct)).sum
    if 0 < total_weight then some (total_weighted / total_weight) else none

/-- `Trade.has_position`: at least one entry level filled. -/
def Trade.has_position (t : Trade) : Bool := !t.parts.isEmpty

/-- `Trade.close_trade`: no-op when no part is filled; otherwise record the
exit, set status `CLOSED` and compute the realized P&L
(`avg - exit` for sell, `exit - avg` for buy, zero when the average entry is
undefined or not positive).  The exit price is an `Option` because the EOD
fallback passes `get_avg_entry_price()` through unchanged. -/
def Trade.close_trade (t : Trade) (exit_time : ℕ) (exit_price : Option ℚ)
    (exit_reason : String) : Trade :=
  if t.parts.isEmpty then t
  else
    let avg := t.get_avg_entry_price
    let pnl : ℚ := match avg, exit_price with
      | some a, some p =>
        if 0 < a then (if t.direction = "sell" then a - p else p - a) else 0
      | _, _ => 0
    let pnl_pct : ℚ := match avg, exit_price with
      | some a, some _ => if 0 < a then (pnl / a) * 100 else 0
      | _, _ => 0
    { t with exit_time := some exit_time, exit_price := exit_price,
             exit_reason := some exit_reason, status := "CLOSED",
             total_pnl := pnl, total_pnl_pct := pnl_pct }

/-- `Trade.get_money_pnl`. -/
def Trade.get_money_pnl (t : Trade) : ℚ := t.total_pnl * (t.lot_size : ℚ)

/-! ## Data rows

One row of the annotated DataFrame: OHLC fields plus the indicator (and
shadow `_prev`) columns.  A column value of `none` models pandas NaN; a
column absent from `cols` models a missing key (which `row.get` also turns
into NaN unless a default is supplied). -/

/-- One minute bar of one contract with its indicator columns. -/
structure Row where
  dt : ℕ
  strike : ℚ
  option_type : String
  expiry_type : String
  expiry_code : ℤ
  open_price : ℚ
  high : ℚ
  low : ℚ
  close : ℚ
  volume : ℚ
  moneyness : String
  cols : List (String × Option ℚ)
  deriving Repr, DecidableEq

/-- Helper column `date` added by `load_data`. -/
def Row.date (r : Row) : ℕ := r.dt / 1440

/-- Helper column `time_only` added by `load_data`. -/
def Row.time_only (r : Row) : ℕ := r.dt % 1440

/-- `row.get(key)` as used by `check_condition`: a present-but-NaN column and
a missing column both read as NaN (`none`); the four raw price fields are
always present. -/
def rowGet? (r : Row) (k : String) : Option (Option ℚ) :=
  if k = "close" then some (some r.close)
  else if k = "high" then some (some r.high)
  else if k = "low" then some (some r.low)
  else if k = "open" then some (some r.open_price)
  else r.cols.lookup k

/-- `row.get(key)` with NaN for a missing key. -/
def rowGet (r : Row) (k : String) : Option ℚ := (rowGet? r k).getD none

/-- `row.get(key, default)`: the default applies only when the key is absent. -/
def rowGetD (r : Row) (k : String) (d : Option ℚ) : Option ℚ :=
  (rowGet? r k).getD d

/-! ## Signal evaluator (`engine/signals.py`) -/

/-- One declarative signal condition from the strategy config. -/
structure Condition where
  compare : String
  indicator : String
  value : ℚ
  other : String
  price_field : Option String
  deriving Repr, DecidableEq

/-- `a <= b` under pandas NaN semantics: any comparison with NaN is false. -/
def optLe (a b : Option ℚ) : Bool :=
  match a, b with
  | some x, some y => decide (x ≤ y)
  | _, _ => false

/-- `a >= b` under pandas NaN semantics. -/
def optGe (a b : Option ℚ) : Bool :=
  match a, b with
  | some x, some y => decide (y ≤ x)
  | _, _ => false

/-- `check_condition` of `engine/signals.py`.  Returns `(met, description)`;
an unknown comparison type raises `ValueError`, modelled as `Except.error`.
The `price_above`/`price_below` branches run before the blanket NaN guard,
exactly as in the source. -/
def checkCondition (row : Row) (cond : Condition) : Except String (Bool × String) :=
  let compare := cond.compare
  let ind_name := cond.indicator
  let curr := rowGet row ind_name
  let prev := rowGet row (ind_name ++ "_prev")
  if compare = "price_above" then
    let pf := cond.price_field.getD "close"
    match rowGet row pf, curr with
    | some price, some c =>
      let met := decide (c < price)
      .ok (met, if met then pf ++ " above " ++ ind_name else "")
    | _, _ => .ok (false, pf ++ " or " ++ ind_name ++ "=NaN")
  else if compare = "price_below" then
    let pf := cond.price_field.getD "close"
    match rowGet row pf, curr with
    | some price, some c =>
      let met := decide (price < c)
      .ok (met, if met then pf ++ " below " ++ ind_name else "")
    | _, _ => .ok (false, pf ++ " or " ++ ind_name ++ "=NaN")
  else
    match curr, prev with
    | some c, some p =>
      if compare = "crosses_above" then
        let met := decide (p ≤ cond.value ∧ cond.value < c)
        .ok (met, if met then ind_name ++ " crossed above" else "")
      else if compare = "crosses_below" then
        let met := decide (cond.value ≤ p ∧ c < cond.value)
        .ok (met, if met then ind_name ++ " crossed below" else "")
      else if compare = "above" then
        let met := decide (cond.value < c)
        .ok (met, if met then ind_name ++ " above value" else "")
      else if compare = "below" then
        let met := decide (c < cond.value)
        .ok (met, if met then ind_name ++ " below value" else "")
      else if compare = "price_crosses_above" then
        let pf := cond.price_field.getD "close"
        let price := rowGet row pf
        let price_prev := rowGetD row (pf ++ "_prev") price
        match price with
        | none => .ok (false, pf ++ "=NaN")
        | some pr =>
          let met := optLe price_prev (some p) && decide (c < pr)
          .ok (met, if met then pf ++ " crossed above " ++ ind_name else "")
      else if compare = "price_crosses_below" then
        let pf := cond.price_field.getD "close"
        let price := rowGet row pf
        let price_prev := rowGetD row (pf ++ "_prev") price
        match price with
        | none => .ok (false, pf ++ "=NaN")
        | some pr =>
          let met := optGe price_prev (some p) && decide (pr < c)
          .ok (met, if met then pf ++ " crossed below " ++ ind_name else "")
      else if compare = "crosses_above_indicator" then
        match rowGet row cond.other, rowGet row (cond.other ++ "_prev") with
        | some oc, some op =>
          let met := decide (p ≤ op ∧ oc < c)
          .ok (met, if met then ind_name ++ " crossed above " ++ cond.other else "")
        | _, _ => .ok (false, cond.other ++ "=NaN (warmup)")
      else if compare = "crosses_below_indicator" then
        match rowGet row cond.other, rowGet row (cond.other ++ "_prev") with
        | some oc, some op =>
          let met := decide (op ≤ p ∧ c < oc)
          .ok (met, if met then ind_name ++ " crossed below " ++ cond.other else "")
        | _, _ => .ok (false, cond.other ++ "=NaN (warmup)")
      else
        .error ("Unknown comparison type: " ++ compare)
    | _, _ => .ok (false, ind_name ++ "=NaN (warmup)")

/-- `check_signal` of `engine/signals.py`:  empty condition list returns
`(False, "")` before any logic dispatch; otherwise every condition is
evaluated, AND/OR combined, and an unknown logic raises. -/
def checkSignal (row : Row) (conditions : List Condition) (logic : String) :
    Except String (Bool × String) :=
  if conditions.isEmpty then .ok (false, "")
  else do
    let pairs ← conditions.mapM (checkCondition row)
    let results := pairs.map (fun p => p.1)
    let descriptions := (pairs.filter (fun p => p.1 && p.2 ≠ "")).map (fun p => p.2)
    let fired ←
      if logic = "AND" then pure (results.all id)
      else if logic = "OR" then pure (results.any id)
      else Except.error ("Unknown signal logic: " ++ logic)
    .ok (fired, if fired then String.intercalate " & " descriptions else "")

/-! ## Backtest engine (`engine/backtest.py`) -/

/-- The strategy-derived fields of `BacktestEngine.__init__`.  Times are
minutes of the day. -/
structure EngineCfg where
  instrument : String
  lot_size : ℕ
  entry_time : ℕ
  exit_time : ℕ
  stop_loss_pct : ℚ
  target_pct : ℚ
  direction : String
  signal_conditions : List Condition
  signal_logic : String
  entry_levels_config : List LevelCfg
  max_trades_per_day : Option ℕ
  deriving Repr, DecidableEq

/-- The contract-identity filter used throughout `backtest.py`. -/
def contractMatch (trade : Trade) (r : Row) : Bool :=
  r.strike == trade.strike && r.option_type == trade.option_type &&
  r.expiry_type == trade.expiry_type && r.expiry_code == trade.expiry_code

/-- `BacktestEngine._get_contract_candle`: the first row of this minute for
the trade's exact contract, `None` when absent. -/
def getContractCandle (trade : Trade) (minute_data : List Row) : Option Row :=
  minute_data.find? (contractMatch trade)

/-- The `while next_level is not None` loop body of
`BacktestEngine._check_staggered_entry`.  `fuel` bounds the iteration count
(the Python loop terminates because each `add_entry` consumes one unfilled
level, so `entry_levels.length` fuel is always enough). -/
def entryFillLoop (direction : String) (candle : Row) (t : ℕ) :
    ℕ → Trade → List String → Trade × List String
  | 0, trade, events => (trade, events)
  | fuel + 1, trade, events =>
    match trade.get_next_unfilled_level with
    | none => (trade, events)
    | some next_level =>
      if direction = "sell" then
        if next_level.target_price ≤ candle.high then
          entryFillLoop direction candle t fuel
            (trade.add_entry next_level t next_level.target_price)
            (events ++ ["ENTRY Part" ++ toString next_level.level_num])
        else (trade, events)
      else
        if candle.low ≤ next_level.target_price then
          entryFillLoop direction candle t fuel
            (trade.add_entry next_level t next_level.target_price)
            (events ++ ["ENTRY Part" ++ toString next_level.level_num])
        else (trade, events)

/-- `BacktestEngine._check_staggered_entry`: fill every consecutive entry
level this candle reaches (sell: `high >= target`, buy: `low <= target`),
in strict level order, each at its own target price. -/
def checkStaggeredEntry (direction : String) (trade : Trade)
    (minute_data : List Row) (t : ℕ) : Trade × List String :=
  match getContractCandle trade minute_data with
  | none => (trade, [])
  | some candle =>
    entryFillLoop direction candle t trade.entry_levels.length trade []

/-- `BacktestEngine._check_exit`: SL / TP / EOD exit evaluation.  Returns the
(possibly closed) trade, whether it closed (in the source, a closing call
also appends the trade to `self.trades`), and the event message. -/
def checkExit (cfg : EngineCfg) (trade : Trade) (minute_data day_data : List Row)
    (t : ℕ) (is_exit_time : Bool) : Trade × Bool × Option String :=
  if !trade.has_position then (trade, false, none)
  else
    match getContractCandle trade minute_data with
    | none =>
      if is_exit_time then
        let last_candle_df := day_data.filter (fun r =>
          contractMatch trade r && decide (r.time_only ≤ cfg.exit_time))
        match last_candle_df.getLast? with
        | some lc =>
          (trade.close_trade t (some lc.close) "EOD", true,
           some "EXIT EOD (no data at exit time, used last candle close)")
        | none =>
          let avg := trade.get_avg_entry_price
          (trade.close_trade t avg "EOD", true,
           some "EXIT EOD (no data, closed flat at avg_entry)")
      else (trade, false, none)
    | some candle =>
      match trade.get_avg_entry_price with
      | none => (trade, false, none)
      | some avg_entry =>
        let hit : Option (String × ℚ) :=
          if cfg.direction = "sell" then
            let sl_price := avg_entry * (1 + cfg.stop_loss_pct / 100)
            let tp_price := avg_entry * (1 - cfg.target_pct / 100)
            if sl_price ≤ candle.high then some ("STOP_LOSS", sl_price)
            else if candle.low ≤ tp_price then some ("TARGET", tp_price)
            else none
          else
            let sl_price := avg_entry * (1 - cfg.stop_loss_pct / 100)
            let tp_price := avg_entry * (1 + cfg.target_pct / 100)
            if candle.low ≤ sl_price then some ("STOP_LOSS", sl_price)
            else if tp_price ≤ candle.high then some ("TARGET", tp_price)
            else none
        match hit with
        | some rp =>
          (trade.close_trade t (some rp.2) rp.1, true, some ("EXIT " ++ rp.1))
        | none =>
          if is_exit_time then
            (trade.close_trade t (some candle.close) "EOD", true, some "EXIT EOD")
          else (trade, false, none)

/-- `pd.Timestamp(f"(date) (exit_time)")` in minute encoding. -/
def mkTs (date t_only : ℕ) : ℕ := date * 1440 + t_only

/-- `BacktestEngine._eod_close_trade`: the end-of-day safety net.  Returns
the trade, whether it was appended to `self.trades` (it is exactly when a
position exists), and the event message. -/
def eodCloseTrade (cfg : EngineCfg) (trade : Trade) (day_data : List Row)
    (date : ℕ) : Trade × Bool × String :=
  if trade.has_position then
    let contract_data := day_data.filter (fun r =>
      contractMatch trade r && decide (r.time_only ≤ cfg.exit_time))
    match contract_data.getLast? with
    | some last_row =>
      (trade.close_trade last_row.dt (some last_row.close) "EOD", true,
       "EXIT EOD (safety net)")
    | none =>
      (trade.close_trade (mkTs date cfg.exit_time) trade.get_avg_entry_price "EOD",
       true, "EXIT EOD (safety net, no data, closed flat)")
  else (trade, false, "EOD: observation expired (no entry taken)")

/-- The per-day mutable state of `BacktestEngine.run`. -/
structure DayState where
  active_ce : Option Trade
  active_pe : Option Trade
  day_trade_count : ℕ
  trades : List Trade
  deriving Repr, DecidableEq

/-- One iteration of the `for _, row in atm_data.iterrows()` signal loop of
`BacktestEngine.run`: on a fired signal construct a new `Trade` for an idle
track and increment the day count. -/
def signalStep (cfg : EngineCfg) (t : ℕ) (st : DayState) (row : Row) :
    Except String DayState := do
  let fr ← checkSignal row cfg.signal_conditions cfg.signal_logic
  if !fr.1 then pure st
  else
    if row.option_type == "CE" then
      match st.active_ce with
      | none =>
        pure { st with
          active_ce := some (Trade.init t row.close "CE" row.strike
            row.expiry_type row.expiry_code cfg.instrument cfg.direction
            cfg.entry_levels_config cfg.lot_size),
          day_trade_count := st.day_trade_count + 1 }
      | some _ => pure st
    else if row.option_type == "PE" then
      match st.active_pe with
      | none =>
        pure { st with
          active_pe := some (Trade.init t row.close "PE" row.strike
            row.expiry_type row.expiry_code cfg.instrument cfg.direction
            cfg.entry_levels_config cfg.lot_size),
          day_trade_count := st.day_trade_count + 1 }
      | some _ => pure st
    else pure st

/-- The staggered-entry block of `BacktestEngine.run` (runs only before the
exit-time boundary, only for `WAITING_ENTRY`/`PARTIAL_POSITION` tracks). -/
def entryPhase (cfg : EngineCfg) (st : DayState) (minute_data : List Row)
    (t : ℕ) (is_exit_time : Bool) : DayState :=
  if is_exit_time then st
  else
    let st1 := match st.active_ce with
      | some tr =>
        if tr.status = "WAITING_ENTRY" ∨ tr.status = "PARTIAL_POSITION" then
          let tr2 := (checkStaggeredEntry cfg.direction tr minute_data t).1
          { st with active_ce := some tr2 }
        else st
      | none => st
    match st1.active_pe with
    | some tr =>
      if tr.status = "WAITING_ENTRY" ∨ tr.status = "PARTIAL_POSITION" then
        let tr2 := (checkStaggeredEntry cfg.direction tr minute_data t).1
        { st1 with active_pe := some tr2 }
      else st1
    | none => st1

/-- The exit-management block of `BacktestEngine.run`: check each active
track; a closed trade is appended to the result list and its track cleared. -/
def exitPhase (cfg : EngineCfg) (st : DayState) (minute_data day_data : List Row)
    (t : ℕ) (is_exit_time : Bool) : DayState :=
  let st1 := match st.active_ce with
    | some tr =>
      let res := checkExit cfg tr minute_data day_data t is_exit_time
      if res.2.1 then
        { st with active_ce := none, trades := st.trades ++ [res.1] }
      else { st with active_ce := some res.1 }
    | none => st
  match st1.active_pe with
  | some tr =>
    let res := checkExit cfg tr minute_data day_data t is_exit_time
    if res.2.1 then
      { st1 with active_pe := none, trades := st1.trades ++ [res.1] }
    else { st1 with active_pe := some res.1 }
  | none => st1

/-- The body of the minute loop in `BacktestEngine.run`: skip outside the
trading window; otherwise run signal detection (only before exit time and
only when the per-day cap has not been reached), staggered entry, and exit
management. -/
def processMinute (cfg : EngineCfg) (day_data : List Row) (st : DayState)
    (minute : ℕ) : Except String DayState := do
  let t_only := minute % 1440
  if t_only < cfg.entry_time then pure st
  else if cfg.exit_time < t_only then pure st
  else
    let is_exit_time := decide (cfg.exit_time ≤ t_only)
    let minute_data := day_data.filter (fun r => r.dt == minute)
    let atm_data := minute_data.filter (fun r => r.moneyness == "ATM")
    let day_limit_hit := match cfg.max_trades_per_day with
      | some n => decide (n ≤ st.day_trade_count)
      | none => false
    let st1 ←
      if !is_exit_time && !day_limit_hit then
        atm_data.foldlM (signalStep cfg minute) st
      else pure st
    let st2 := entryPhase cfg st1 minute_data minute is_exit_time
    pure (exitPhase cfg st2 minute_data day_data minute is_exit_time)

/-- `pandas.unique`: deduplicate preserving first occurrence. -/
def uniqFirst (l : List ℕ) : List ℕ :=
  l.foldl (fun acc x => if x ∈ acc then acc else acc ++ [x]) []

/-- One day of `BacktestEngine.run`: fresh tracks and day count, the minute
loop, then the end-of-day close/discard of both tracks. -/
def processDay (cfg : EngineCfg) (trades0 : List Trade) (day_data : List Row)
    (date : ℕ) : Except String DayState := do
  let minutes := uniqFirst (day_data.map (fun r => r.dt))
  let st0 : DayState := DayState.mk none none 0 trades0
  let st ← minutes.foldlM (processMinute cfg day_data) st0
  let st1 := match st.active_ce with
    | some tr =>
      let res := eodCloseTrade cfg tr day_data date
      { st with active_ce := none,
                trades := st.trades ++ (if res.2.1 then [res.1] else []) }
    | none => st
  let st2 := match st1.active_pe with
    | some tr =>
      let res := eodCloseTrade cfg tr day_data date
      { st1 with active_pe := none,
                 trades := st1.trades ++ (if res.2.1 then [res.1] else []) }
    | none => st1
  pure st2

/-- `BacktestEngine.run`: iterate `processDay` over the distinct dates of the
dataset and return the accumulated completed trades. -/
def run (cfg : EngineCfg) (df : List Row) : Except String (List Trade) := do
  let dates := uniqFirst (df.map (fun r => r.date))
  let trades ← dates.foldlM (fun trs d => do
      let st ← processDay cfg trs (df.filter (fun r => r.date == d)) d
      pure st.trades) []
  pure trades

/-! ## Indicator registry (`indicators/__init__.py`, `engine/data_loader.py`) -/

/-- The `_REGISTRY` keys of `indicators/__init__.py`. -/
def REGISTRY : List String := ["RSI", "EMA", "SMA", "MACD", "BOLLINGER", "VWAP"]

/-- `get_indicator`: registry lookup on the upper-cased type string.
Constructing a registered indicator always succeeds (the classes only store
their parameters), so the result is modelled by the canonical type key. -/
def getIndicator (indicator_type : String) : Except String String :=
  if REGISTRY.contains indicator_type.toUpper then .ok indicator_type.toUpper
  else .error ("Unknown indicator type " ++ indicator_type)

/-- One entry of the strategy's indicator config list. -/
structure IndCfg where
  type : String
  name : String
  deriving Repr, DecidableEq

/-- The instance-creation loop of `calculate_indicators` in
`engine/data_loader.py`: every configured indicator is constructed through
`get_indicator` before any indicator computation starts, so an unknown type
aborts the whole call first. -/
def createIndicators (indicator_configs : List IndCfg) : Except String (List String) :=
  indicator_configs.mapM (fun cfg => getIndicator cfg.type)

/-- `Except.isOk` as a plain Bool. -/
def exOk {ε α : Type} : Except ε α → Bool
  | .ok _ => true
  | .error _ => false

/-! ## RSI (`indicators/rsi.py`) -/

/-- Signed gain at bar `i` (`gains[i]` in the source; index 0 is never read
by the seed or the loop when the period is at least 1). -/
def rsiGain (closes : List ℚ) (i : ℕ) : ℚ :=
  max (closes.getD i 0 - closes.getD (i - 1) 0) 0

/-- Signed loss at bar `i` (`losses[i]` in the source). -/
def rsiLoss (closes : List ℚ) (i : ℕ) : ℚ :=
  max (closes.getD (i - 1) 0 - closes.getD i 0) 0

/-- `100` when the average loss is exactly zero, otherwise
`100 - 100/(1 + avg_gain/avg_loss)`. -/
def rsiOf (g l : ℚ) : ℚ := if l = 0 then 100 else 100 - 100 / (1 + g / l)

/-- Seed average gain: simple mean of the first `p` gains (`gains[1:p+1]`). -/
def seedGain (p : ℕ) (closes : List ℚ) : ℚ :=
  ((List.range p).map (fun j => rsiGain closes (j + 1))).sum / (p : ℚ)

/-- Seed average loss: simple mean of the first `p` losses. -/
def seedLoss (p : ℕ) (closes : List ℚ) : ℚ :=
  ((List.range p).map (fun j => rsiLoss closes (j + 1))).sum / (p : ℚ)

/-- The `for i in range(p+1, n)` smoothing loop of `RSI.calculate`: carry the
running averages, emit one RSI value per remaining bar (`k` counts the bars
left, `i` is the current bar index). -/
def rsiLoop (p : ℕ) (closes : List ℚ) : ℚ → ℚ → ℕ → ℕ → List ℚ
  | _, _, _, 0 => []
  | g, l, i, k + 1 =>
    let g' := (g * ((p : ℚ) - 1) + rsiGain closes i) / (p : ℚ)
    let l' := (l * ((p : ℚ) - 1) + rsiLoss closes i) / (p : ℚ)
    rsiOf g' l' :: rsiLoop p closes g' l' (i + 1) k

/-- `RSI.calculate` of `indicators/rsi.py`: NaN for the first `p` bars (and
everywhere when fewer than `p+1` bars exist), the seeded value at bar `p`,
then Wilder smoothing. -/
def rsiCalculate (p : ℕ) (closes : List ℚ) : List (Option ℚ) :=
  let n := closes.length
  if n < p + 1 then List.replicate n none
  else
    let g0 := seedGain p closes
    let l0 := seedLoss p closes
    List.replicate p none ++
      (rsiOf g0 l0 :: rsiLoop p closes g0 l0 (p + 1) (n - (p + 1))).map some

/-- Wilder's average gain at bar `p + k`, written exactly as the spec's
recurrence: seeded by the simple mean of the first `p` signed changes, then
`avg = (avg*(p-1) + current)/p`. -/
def wilderGain (p : ℕ) (closes : List ℚ) : ℕ → ℚ
  | 0 => seedGain p closes
  | k + 1 => (wilderGain p closes k * ((p : ℚ) - 1) + rsiGain closes (p + k + 1)) / (p : ℚ)

/-- Wilder's average loss at bar `p + k` (spec recurrence). -/
def wilderLoss (p : ℕ) (closes : List ℚ) : ℕ → ℚ
  | 0 => seedLoss p closes
  | k + 1 => (wilderLoss p closes k * ((p : ℚ) - 1) + rsiLoss closes (p + k + 1)) / (p : ℚ)

/-- The spec's description of RSI: undefined for the first `p` bars, and at
every later bar the Wilder formula applied to the recurrence averages. -/
def rsiRef (p : ℕ) (closes : List ℚ) (i : ℕ) : Option ℚ :=
  if i < p ∨ closes.length ≤ i then none
  else some (rsiOf (wilderGain p closes (i - p)) (wilderLoss p closes (i - p)))

/-! ## Forward tick checker (`forward/tick_checker.py`) -/

/-- Modelled from the spec: `Trade.update_entry_target` is called by
`check_indicator_entry` in `forward/tick_checker.py` but its definition is
not part of the sources here (`forward/engine.py` likewise imports a missing
`parse_entry_config` from `engine/trade`). Per §4.6 the indicator-level mode
"treats a live indicator value as a moving limit price ... filling at the
indicator's value", and the call site comments "Update target and fill", so
the pending (first unfilled) entry level's target price is moved to the live
indicator value. -/
def setFirstUnfilledTarget (price : ℚ) : List EntryLevel → List EntryLevel
  | [] => []
  | l :: ls =>
    if l.filled then l :: setFirstUnfilledTarget price ls
    else { l with target_price := price } :: ls

/-- Modelled from the spec: see `setFirstUnfilledTarget`; the pending entry
level's target is moved to the live indicator value. -/
def Trade.update_entry_target (t : Trade) (price : ℚ) : Trade :=
  { t with entry_levels := setFirstUnfilledTarget price t.entry_levels }

/-- `check_indicator_entry` of `forward/tick_checker.py`: when the live
price crossed through the indicator value between two consecutive samples,
move the entry target there and fill at the indicator value. -/
def checkIndicatorEntry (trade : Trade) (prev_ltp curr_ltp indicator_value : ℚ)
    (t : ℕ) : Trade × List String :=
  if trade.status ≠ "WAITING_ENTRY" then (trade, [])
  else
    let lo := min prev_ltp curr_ltp
    let hi := max prev_ltp curr_ltp
    if lo ≤ indicator_value ∧ indicator_value ≤ hi then
      let tr := trade.update_entry_target indicator_value
      match tr.get_next_unfilled_level with
      | some next_level =>
        (tr.add_entry next_level t indicator_value, ["ENTRY (indicator level)"])
      | none => (tr, [])
    else (trade, [])

/-! ## Concrete inputs used by counterexamples and witnesses -/

/-- The ten comparison kinds recognized by `check_condition`. -/
def recognizedCompares : List String :=
  ["crosses_above", "crosses_below", "above", "below", "price_above",
   "price_below", "price_crosses_above", "price_crosses_below",
   "crosses_above_indicator", "crosses_below_indicator"]

/-- A warm-up row: no indicator columns at all, so `rsi` reads as NaN. -/
def warmupRow : Row := Row.mk 600 100 "CE" "WEEK" 1 100 100 100 100 0 "ATM" []

/-- A condition with an unrecognized comparison kind. -/
def bogusCond : Condition := Condition.mk "frobnicate" "rsi" 0 "" none

/-- A row with defined `rsi` and `rsi_prev` columns (value 70 over 60). -/
def firedRow : Row :=
  Row.mk 600 100 "CE" "WEEK" 1 100 200 100 100 0 "ATM"
    [("rsi", some 70), ("rsi_prev", some 60)]

/-- The same fired row for the PE track (different strike). -/
def firedRowPe : Row :=
  Row.mk 600 200 "PE" "WEEK" 1 100 200 100 100 0 "ATM"
    [("rsi", some 70), ("rsi_prev", some 60)]

/-- A sell strategy, RSI>50 entry, one +5% level, SL 20, TP 10, at most one
trade per day. -/
def capOneCfg : EngineCfg :=
  EngineCfg.mk "NIFTY" 50 570 870 20 10 "sell"
    [Condition.mk "above" "rsi" 50 "" none] "AND" [LevelCfg.mk 5 100] (some 1)

/-- Three staggered sell levels at +5/+10/+15 percent from base 100. -/
def threeLevelTrade : Trade :=
  Trade.init 600 100 "CE" 100 "WEEK" 1 "NIFTY" "sell"
    [LevelCfg.mk 5 40, LevelCfg.mk 10 30, LevelCfg.mk 15 30] 50

/-- A candle with high 120 for the contract of `threeLevelTrade`. -/
def candle120 : Row := Row.mk 600 100 "CE" "WEEK" 1 100 120 95 110 0 "ATM" []

/-! ## Invariant predicates for the loop-state theorems -/

/-- Every configured and filled capital percentage of the trade is positive
(the spec's data model: level weights conceptually sum to 100). -/
def GoodActive (tr : Trade) : Prop :=
  (∀ l ∈ tr.entry_levels, 0 < l.capital_pct) ∧
  (∀ pt ∈ tr.parts, 0 < pt.capital_pct)

/-- A completed trade record: at least one filled part, status CLOSED, and
all three exit fields set. -/
def ClosedOk (tr : Trade) : Prop :=
  tr.parts ≠ [] ∧ tr.status = "CLOSED" ∧ tr.exit_time.isSome = true ∧
  tr.exit_price.isSome = true ∧ tr.exit_reason.isSome = true

/-- Loop-state invariant of `BacktestEngine.run`: active tracks carry trades
with positive weights, and every archived trade is a completed record. -/
def InvState (st : DayState) : Prop :=
  (∀ tr, st.active_ce = some tr → GoodActive tr) ∧
  (∀ tr, st.active_pe = some tr → GoodActive tr) ∧
  (∀ tr ∈ st.trades, ClosedOk tr)

/-- Number of idle tracks of a loop state (a new trade occupies one). -/
def freeSlots (st : DayState) : ℕ :=
  (if st.active_ce.isNone then 1 else 0) + (if st.active_pe.isNone then 1 else 0)

/-- The CE trade produced by running `capOneCfg` over `firedRow`/`firedRowPe`. -/
def tradeW1 : Trade :=
  Trade.mk 600 100 "CE" 100 "WEEK" 1 "NIFTY" "sell" 50
    [EntryLevel.mk 1 5 100 105 true] [PositionPart.mk 1 600 105 100]
    (some 600) (some 126) (some "STOP_LOSS") "CLOSED" (-21) (-20)

/-- The PE trade produced by the same run. -/
def tradeW2 : Trade :=
  Trade.mk 600 100 "PE" 200 "WEEK" 1 "NIFTY" "sell" 50
    [EntryLevel.mk 1 5 100 105 true] [PositionPart.mk 1 600 105 100]
    (some 600) (some 126) (some "STOP_LOSS") "CLOSED" (-21) (-20)

end Backtest

namespace Backtest

/-! ## Helper lemmas -/

theorem avg_some_parts_nonempty {t : Trade} {a : ℚ}
    (h : t.get_avg_entry_price = some a) : t.parts.isEmpty = false := by
  by_cases hp : t.parts.isEmpty
  · simp [Trade.get_avg_entry_price, hp] at h
  · simpa using hp

theorem close_trade_fields (t : Trade) (h : t.parts.isEmpty = false)
    (tm : ℕ) (p : Option ℚ) (r : String) :
    (t.close_trade tm p r).exit_reason = some r ∧
    (t.close_trade tm p r).exit_price = p ∧
    (t.close_trade tm p r).exit_time = some tm ∧
    (t.close_trade tm p r).status = "CLOSED" ∧
    (t.close_trade tm p r).parts = t.parts := by
  simp [Trade.close_trade, h]

theorem close_at_avg_pnl_zero (t : Trade) (h : t.parts.isEmpty = false)
    (tm : ℕ) (r : String) :
    (t.close_trade tm t.get_avg_entry_price r).total_pnl = 0 := by
  unfold Trade.close_trade
  simp only [h, Bool.false_eq_true, if_false]
  cases ha : t.get_avg_entry_price with
  | none => simp
  | some a =>
    by_cases h0 : 0 < a
    · simp [h0]
    · simp [h0]

theorem has_position_parts {t : Trade} (h : t.has_position = true) :
    t.parts.isEmpty = false := by
  simpa [Trade.has_position] using h

/-! ## C1: stop-loss priority over target in the same candle -/

/-- C1: for a trade with at least one filled part whose minute candle
satisfies both the stop-loss and the target condition, `_check_exit` closes
the trade with reason STOP_LOSS at exactly the stop-loss price (sell: SL
threshold `avg*(1+sl%/100)` checked on the high before the TP threshold
`avg*(1-tp%/100)` on the low; buy: SL on the low checked before TP on the
high), never with reason TARGET. -/
theorem C1_sl_checked_before_tp (cfg : EngineCfg) (trade : Trade)
    (minute_data day_data : List Row) (t : ℕ) (iet : Bool) (a : ℚ) (c : Row)
    (hc : getContractCandle trade minute_data = some c)
    (ha : trade.get_avg_entry_price = some a) :
    (cfg.direction = "sell" →
      a * (1 + cfg.stop_loss_pct / 100) ≤ c.high →
      c.low ≤ a * (1 - cfg.target_pct / 100) →
      (checkExit cfg trade minute_data day_data t iet).2.1 = true ∧
      (checkExit cfg trade minute_data day_data t iet).1.exit_reason =
        some "STOP_LOSS" ∧
      (checkExit cfg trade minute_data day_data t iet).1.exit_price =
        some (a * (1 + cfg.stop_loss_pct / 100))) ∧
    (cfg.direction = "buy" →
      c.low ≤ a * (1 - cfg.stop_loss_pct / 100) →
      a * (1 + cfg.target_pct / 100) ≤ c.high →
      (checkExit cfg trade minute_data day_data t iet).2.1 = true ∧
      (checkExit cfg trade minute_data day_data t iet).1.exit_reason =
        some "STOP_LOSS" ∧
      (checkExit cfg trade minute_data day_data t iet).1.exit_price =
        some (a * (1 - cfg.stop_loss_pct / 100))) := by
  have hp := avg_some_parts_nonempty ha
  constructor
  · intro hd h1 h2
    have hcf := close_trade_fields trade hp t
      (some (a * (1 + cfg.stop_loss_pct / 100))) "STOP_LOSS"
    simp [checkExit, Trade.has_position, hp, hc, ha, hd, h1,
          hcf.1, hcf.2.1]
  · intro hd h1 h2
    have hcf := close_trade_fields trade hp t
      (some (a * (1 - cfg.stop_loss_pct / 100))) "STOP_LOSS"
    simp [checkExit, Trade.has_position, hp, hc, ha, hd, h1,
          hcf.1, hcf.2.1]

/-- Witness for C1 at a concrete input: sell trade, avg entry 109.5, candle
high 200 and low 80 trigger both SL (131.4) and TP (98.55); the trade closes
STOP_LOSS at 131.4. -/
theorem C1_sl_checked_before_tp_witness :
    ((checkExit capOneCfg
        (checkStaggeredEntry "sell" threeLevelTrade [candle120] 600).1
        [Row.mk 601 100 "CE" "WEEK" 1 100 200 80 100 0 "ATM" []] [] 601
        false).1.exit_reason = some "STOP_LOSS") ∧
    ((checkExit capOneCfg
        (checkStaggeredEntry "sell" threeLevelTrade [candle120] 600).1
        [Row.mk 601 100 "CE" "WEEK" 1 100 200 80 100 0 "ATM" []] [] 601
        false).1.exit_price = some ((219 : ℚ) / 2 * (1 + 20 / 100))) := by
  have h := C1_sl_checked_before_tp capOneCfg
    (checkStaggeredEntry "sell" threeLevelTrade [candle120] 600).1
    [Row.mk 601 100 "CE" "WEEK" 1 100 200 80 100 0 "ATM" []] [] 601 false
    ((219 : ℚ) / 2) (Row.mk 601 100 "CE" "WEEK" 1 100 200 80 100 0 "ATM" [])
    (by with_unfolding_all decide) (by with_unfolding_all decide)
  have h2 := h.1 (by with_unfolding_all decide) (by with_unfolding_all decide) (by with_unfolding_all decide)
  exact ⟨h2.2.1, h2.2.2⟩

/-! ## C6: EOD fallback chain -/

/-- C6: at the exit-time minute with no candle for the contract,
`_check_exit` closes with reason EOD at the last same-day candle close
(among the contract's rows at or before exit time), or — when no such row
exists — at the average entry price with exactly zero P&L; the EOD safety
net `_eod_close_trade` applies the same fallback chain. -/
theorem C6_eod_fallback_chain (cfg : EngineCfg) (trade : Trade)
    (minute_data day_data : List Row) (t date : ℕ) (lc lr : Row)
    (hpos : trade.has_position = true) :
    (getContractCandle trade minute_data = none →
      ((day_data.filter (fun r =>
          contractMatch trade r && decide (r.time_only ≤ cfg.exit_time))).getLast?
          = some lc →
        (checkExit cfg trade minute_data day_data t true).2.1 = true ∧
        (checkExit cfg trade minute_data day_data t true).1.exit_reason =
          some "EOD" ∧
        (checkExit cfg trade minute_data day_data t true).1.exit_price =
          some lc.close) ∧
      ((day_data.filter (fun r =>
          contractMatch trade r && decide (r.time_only ≤ cfg.exit_time))).getLast?
          = none →
        (checkExit cfg trade minute_data day_data t true).2.1 = true ∧
        (checkExit cfg trade minute_data day_data t true).1.exit_reason =
          some "EOD" ∧
        (checkExit cfg trade minute_data day_data t true).1.exit_price =
          trade.get_avg_entry_price ∧
        (checkExit cfg trade minute_data day_data t true).1.total_pnl = 0)) ∧
    (((day_data.filter (fun r =>
          contractMatch trade r && decide (r.time_only ≤ cfg.exit_time))).getLast?
          = some lr →
        (eodCloseTrade cfg trade day_data date).2.1 = true ∧
        (eodCloseTrade cfg trade day_data date).1.exit_reason = some "EOD" ∧
        (eodCloseTrade cfg trade day_data date).1.exit_price = some lr.close) ∧
     ((day_data.filter (fun r =>
          contractMatch trade r && decide (r.time_only ≤ cfg.exit_time))).getLast?
          = none →
        (eodCloseTrade cfg trade day_data date).2.1 = true ∧
        (eodCloseTrade cfg trade day_data date).1.exit_reason = some "EOD" ∧
        (eodCloseTrade cfg trade day_data date).1.exit_price =
          trade.get_avg_entry_price ∧
        (eodCloseTrade cfg trade day_data date).1.total_pnl = 0)) := by
  have hp := has_position_parts hpos
  refine ⟨fun hc => ⟨fun hlast => ?_, fun hlast => ?_⟩,
          ⟨fun hlast => ?_, fun hlast => ?_⟩⟩
  · have hcf := close_trade_fields trade hp t (some lc.close) "EOD"
    simp [checkExit, Trade.has_position, hp, hc, hlast, hcf.1, hcf.2.1]
  · have hcf := close_trade_fields trade hp t trade.get_avg_entry_price "EOD"
    have hz := close_at_avg_pnl_zero trade hp t "EOD"
    simp [checkExit, Trade.has_position, hp, hc, hlast, hcf.1, hcf.2.1, hz]
  · have hcf := close_trade_fields trade hp lr.dt (some lr.close) "EOD"
    simp [eodCloseTrade, hpos, hlast, hcf.1, hcf.2.1]
  · have hcf := close_trade_fields trade hp (mkTs date cfg.exit_time)
      trade.get_avg_entry_price "EOD"
    have hz := close_at_avg_pnl_zero trade hp (mkTs date cfg.exit_time) "EOD"
    simp [eodCloseTrade, hpos, hlast, hcf.1, hcf.2.1, hz]

/-- Witness for C6 at a concrete input: a filled trade with no minute candle
and no same-day data closes flat at its average entry with zero P&L. -/
theorem C6_eod_fallback_chain_witness :
    (checkExit capOneCfg
      (checkStaggeredEntry "sell" threeLevelTrade [candle120] 600).1
      [] [] 700 true).1.total_pnl = 0 := by
  have h := C6_eod_fallback_chain capOneCfg
    (checkStaggeredEntry "sell" threeLevelTrade [candle120] 600).1
    [] [] 700 0 candle120 candle120 (by with_unfolding_all decide)
  exact ((h.1 (by with_unfolding_all decide)).2 (by with_unfolding_all decide)).2.2.2

/-! ## C10: empty condition list never fires -/

/-- C10: `check_signal` on an empty condition list returns not-fired with an
empty reason for both AND and OR logic — the empty list is answered before
the logic dispatch, so an empty AND is not vacuously true. -/
theorem C10_empty_conditions_not_fired (row : Row) :
    checkSignal row [] "AND" = .ok (false, "") ∧
    checkSignal row [] "OR" = .ok (false, "") :=
  ⟨rfl, rfl⟩

/-! ## C5: the registry omits SuperTrend -/

/-- C5 (divergence witness): `get_indicator` rejects the type string
`SUPERTREND` — whose dedicated branch in `calculate_indicators` is thereby
unreachable and whose implementation exists in `indicators/supertrend.py` —
while the six registered types construct fine; `calculate_indicators` on a
SuperTrend config errors during instance creation, before any computation. -/
theorem C5_supertrend_not_registered :
    exOk (getIndicator "SUPERTREND") = false ∧
    (["SMA", "EMA", "RSI", "MACD", "BOLLINGER", "VWAP"].all
      (fun s => exOk (getIndicator s))) = true ∧
    exOk (createIndicators [IndCfg.mk "SUPERTREND" "supertrend_4_11"]) = false := by
  refine ⟨?_, ?_, ?_⟩ <;> with_unfolding_all decide

/-! ## C4: unknown comparison kind versus warm-up NaN guard -/

/-- C4 counterexample: on a warm-up row (indicator NaN), a condition with an
unrecognized comparison kind does NOT raise — `check_condition` returns the
not-fired warm-up result, because the blanket NaN guard runs before the
unknown-kind dispatch. -/
theorem C4_counterexample_unknown_kind_on_warmup_row :
    checkCondition warmupRow bogusCond = .ok (false, "rsi=NaN (warmup)") ∧
    bogusCond.compare ∉ recognizedCompares := by
  constructor
  · with_unfolding_all rfl
  · with_unfolding_all decide

set_option maxHeartbeats 1000000 in
/-- C4 (amended): a recognized comparison kind never raises; an unrecognized
kind raises exactly when the named indicator's current and previous values
are both defined — on warm-up rows (current or previous NaN) it evaluates to
not-fired instead; a NaN current value always yields not-fired, and a NaN
previous value yields not-fired for every kind except `price_above` /
`price_below` (which do not need it). -/
theorem C4_unknown_kind_raises_only_after_warmup (row : Row) (cond : Condition) :
    (cond.compare ∈ recognizedCompares →
      ∃ v, checkCondition row cond = .ok v) ∧
    (cond.compare ∉ recognizedCompares →
      rowGet row cond.indicator ≠ none →
      rowGet row (cond.indicator ++ "_prev") ≠ none →
      checkCondition row cond =
        .error ("Unknown comparison type: " ++ cond.compare)) ∧
    (rowGet row cond.indicator = none →
      ∃ s, checkCondition row cond = .ok (false, s)) ∧
    (rowGet row (cond.indicator ++ "_prev") = none →
      cond.compare ≠ "price_above" → cond.compare ≠ "price_below" →
      ∃ s, checkCondition row cond = .ok (false, s)) := by
  refine ⟨?_, ?_, ?_, ?_⟩
  · intro hmem
    simp only [recognizedCompares, List.mem_cons, List.not_mem_nil,
      or_false] at hmem
    unfold checkCondition
    rcases hmem with h|h|h|h|h|h|h|h|h|h <;> rw [h] <;>
      simp only [String.reduceEq, reduceIte] <;>
      (repeat' split) <;> exact ⟨_, rfl⟩
  · intro hmem hcu hpv
    simp only [recognizedCompares, List.mem_cons, List.not_mem_nil, or_false,
      not_or] at hmem
    obtain ⟨h1, h2, h3, h4, h5, h6, h7, h8, h9, h10⟩ := hmem
    rcases hc : rowGet row cond.indicator with _ | c
    · exact absurd hc hcu
    rcases hp : rowGet row (cond.indicator ++ "_prev") with _ | p
    · exact absurd hp hpv
    unfold checkCondition
    simp only [hc, hp, h1, h2, h3, h4, h5, h6, h7, h8, h9, h10, if_false,
      ite_false]
  · intro hcu
    unfold checkCondition
    simp only [hcu]
    repeat' split
    all_goals first
      | exact ⟨_, rfl⟩
      | simp_all
  · intro hpv hna hnb
    unfold checkCondition
    simp only [hpv, hna, hnb, if_false, ite_false]
    repeat' split
    all_goals first
      | exact ⟨_, rfl⟩
      | simp_all

/-- Witness for the amended C4 at a concrete input: the recognized kind
`above` on a row with defined values evaluates without raising. -/
theorem C4_unknown_kind_raises_only_after_warmup_witness :
    ∃ v, checkCondition firedRow (Condition.mk "above" "rsi" 50 "" none) = .ok v :=
  (C4_unknown_kind_raises_only_after_warmup firedRow
    (Condition.mk "above" "rsi" 50 "" none)).1 (by with_unfolding_all decide)

/-! ## C3: indicator-level entry fills at the indicator value -/

theorem find_unfilled_setFirstTarget (p : ℚ) (L : List EntryLevel)
    (l : EntryLevel) (h : L.find? (fun x => !x.filled) = some l) :
    (setFirstUnfilledTarget p L).find? (fun x => !x.filled) =
      some { l with target_price := p } := by
  induction L with
  | nil => simp at h
  | cons a as ih =>
    cases ha : a.filled with
    | true =>
      have h' : List.find? (fun x => !x.filled) as = some l := by
        simpa [List.find?, ha] using h
      simp [setFirstUnfilledTarget, ha, List.find?, ih h']
    | false =>
      have hal : a = l := by simpa [List.find?, ha] using h
      subst hal
      simp [setFirstUnfilledTarget, ha, List.find?]

/-- C3: for a `WAITING_ENTRY` trade with a pending entry level, when the
indicator value lies between two consecutive live prices
(`min(prev,curr) <= indicator <= max(prev,curr)`), `check_indicator_entry`
completes normally, appends a `PositionPart` whose entry price equals the
indicator value, and reports an entry event. -/
theorem C3_indicator_entry_fills_at_indicator_value (trade : Trade)
    (prev_ltp curr_ltp indicator_value : ℚ) (t : ℕ) (lvl : EntryLevel)
    (hst : trade.status = "WAITING_ENTRY")
    (hlvl : trade.get_next_unfilled_level = some lvl)
    (h1 : min prev_ltp curr_ltp ≤ indicator_value)
    (h2 : indicator_value ≤ max prev_ltp curr_ltp) :
    (checkIndicatorEntry trade prev_ltp curr_ltp indicator_value t).1.parts =
      trade.parts ++
        [PositionPart.mk lvl.level_num t indicator_value lvl.capital_pct] ∧
    (checkIndicatorEntry trade prev_ltp curr_ltp indicator_value t).2 =
      ["ENTRY (indicator level)"] := by
  have hfind : (trade.update_entry_target indicator_value).get_next_unfilled_level
      = some { lvl with target_price := indicator_value } := by
    unfold Trade.update_entry_target Trade.get_next_unfilled_level
    exact find_unfilled_setFirstTarget _ _ _ hlvl
  unfold checkIndicatorEntry
  rw [hst]
  simp only [ne_eq, not_true_eq_false, if_false, Bool.false_eq_true, ite_false,
    reduceIte, h1, h2, and_self, if_true, hfind]
  simp [Trade.add_entry, Trade.update_entry_target]

/-- Witness for C3 at a concrete input: a fresh one-level trade fills at
indicator value 103 when the live price moves from 100 to 110 across it. -/
theorem C3_indicator_entry_fills_at_indicator_value_witness :
    (checkIndicatorEntry
      (Trade.init 600 100 "CE" 100 "WEEK" 1 "NIFTY" "sell"
        [LevelCfg.mk 5 100] 50) 100 110 103 601).1.parts =
      [] ++ [PositionPart.mk 1 601 103 100] := by
  have h := C3_indicator_entry_fills_at_indicator_value
    (Trade.init 600 100 "CE" 100 "WEEK" 1 "NIFTY" "sell"
      [LevelCfg.mk 5 100] 50) 100 110 103 601
    (EntryLevel.mk 1 5 100 105 false)
    (by with_unfolding_all decide) (by with_unfolding_all decide)
    (by with_unfolding_all decide) (by with_unfolding_all decide)
  exact h.1

end Backtest

namespace Backtest

theorem find_unfilled_eq_filter_head (L : List EntryLevel) :
    L.find? (fun l => !l.filled) = (L.filter (fun l => !l.filled)).head? := by
  induction L with
  | nil => rfl
  | cons a as ih =>
    cases ha : a.filled with
    | true =>
      rw [List.find?_cons_of_neg _ (by simp [ha]),
          List.filter_cons_of_neg (by simp [ha]), ih]
    | false =>
      rw [List.find?_cons_of_pos _ (by simp [ha]),
          List.filter_cons_of_pos (by simp [ha])]
      rfl

theorem filter_markFirstUnfilled (L : List EntryLevel) (l : EntryLevel)
    (rest : List EntryLevel)
    (h : L.filter (fun x => !x.filled) = l :: rest) :
    (markFirstUnfilled L).filter (fun x => !x.filled) = rest := by
  induction L with
  | nil => simp at h
  | cons a as ih =>
    cases ha : a.filled with
    | true =>
      rw [List.filter_cons_of_neg (by simp [ha])] at h
      unfold markFirstUnfilled
      rw [if_pos ha, List.filter_cons_of_neg (by simp [ha])]
      exact ih h
    | false =>
      rw [List.filter_cons_of_pos (by simp [ha])] at h
      injection h with h1 h2
      subst h1
      unfold markFirstUnfilled
      rw [if_neg (by simp [ha]), List.filter_cons_of_neg (by simp)]
      exact h2

end Backtest

namespace Backtest

theorem add_entry_parts (t : Trade) (lvl : EntryLevel) (tm : ℕ) (p : ℚ) :
    (t.add_entry lvl tm p).parts =
      t.parts ++ [PositionPart.mk lvl.level_num tm p lvl.capital_pct] := rfl

theorem add_entry_levels (t : Trade) (lvl : EntryLevel) (tm : ℕ) (p : ℚ) :
    (t.add_entry lvl tm p).entry_levels = markFirstUnfilled t.entry_levels := rfl

theorem entryFillLoop_succ (d : String) (candle : Row) (t fuel : ℕ)
    (trade : Trade) (events : List String) :
    entryFillLoop d candle t (fuel + 1) trade events =
      match trade.get_next_unfilled_level with
      | none => (trade, events)
      | some next_level =>
        if d = "sell" then
          if next_level.target_price ≤ candle.high then
            entryFillLoop d candle t fuel
              (trade.add_entry next_level t next_level.target_price)
              (events ++ ["ENTRY Part" ++ toString next_level.level_num])
          else (trade, events)
        else
          if candle.low ≤ next_level.target_price then
            entryFillLoop d candle t fuel
              (trade.add_entry next_level t next_level.target_price)
              (events ++ ["ENTRY Part" ++ toString next_level.level_num])
          else (trade, events) := rfl

theorem entryFillLoop_sell_parts (candle : Row) (t : ℕ) :
    ∀ (fuel : ℕ) (trade : Trade) (events : List String),
      (trade.entry_levels.filter (fun l => !l.filled)).length ≤ fuel →
      (entryFillLoop "sell" candle t fuel trade events).1.parts =
        trade.parts ++
          ((trade.entry_levels.filter (fun l => !l.filled)).takeWhile
            (fun l => decide (l.target_price ≤ candle.high))).map
            (fun l => PositionPart.mk l.level_num t l.target_price l.capital_pct) := by
  intro fuel
  induction fuel with
  | zero =>
    intro trade events hf
    have hu : trade.entry_levels.filter (fun l => !l.filled) = [] :=
      List.length_eq_zero.mp (Nat.le_zero.mp hf)
    rw [hu]
    simp [entryFillLoop]
  | succ n ih =>
    intro trade events hf
    cases hu : trade.entry_levels.filter (fun l => !l.filled) with
    | nil =>
      have hn : trade.get_next_unfilled_level = none := by
        rw [Trade.get_next_unfilled_level, find_unfilled_eq_filter_head, hu]; rfl
      rw [entryFillLoop_succ]
      simp only [hn, hu]
      simp
    | cons l rest =>
      have hnext : trade.get_next_unfilled_level = some l := by
        rw [Trade.get_next_unfilled_level, find_unfilled_eq_filter_head, hu]; rfl
      rw [entryFillLoop_succ]
      simp only [hnext, reduceIte, String.reduceEq]
      by_cases hhit : l.target_price ≤ candle.high
      · rw [if_pos hhit]
        have hrest : ((trade.add_entry l t l.target_price).entry_levels.filter
            (fun x => !x.filled)) = rest := by
          rw [add_entry_levels]
          exact filter_markFirstUnfilled trade.entry_levels l rest hu
        have hlen : ((trade.add_entry l t l.target_price).entry_levels.filter
            (fun x => !x.filled)).length ≤ n := by
          rw [hrest]
          have hf' := hf
          rw [hu] at hf'
          simpa using Nat.succ_le_succ_iff.mp hf'
        rw [ih _ _ hlen, add_entry_parts, hrest]
        simp [hu, hhit]
      · rw [if_neg hhit]
        simp [hu, hhit]

end Backtest

namespace Backtest

theorem entryFillLoop_buy_parts (candle : Row) (t : ℕ) :
    ∀ (fuel : ℕ) (trade : Trade) (events : List String),
      (trade.entry_levels.filter (fun l => !l.filled)).length ≤ fuel →
      (entryFillLoop "buy" candle t fuel trade events).1.parts =
        trade.parts ++
          ((trade.entry_levels.filter (fun l => !l.filled)).takeWhile
            (fun l => decide (candle.low ≤ l.target_price))).map
            (fun l => PositionPart.mk l.level_num t l.target_price l.capital_pct) := by
  intro fuel
  induction fuel with
  | zero =>
    intro trade events hf
    have hu : trade.entry_levels.filter (fun l => !l.filled) = [] :=
      List.length_eq_zero.mp (Nat.le_zero.mp hf)
    rw [hu]
    simp [entryFillLoop]
  | succ n ih =>
    intro trade events hf
    cases hu : trade.entry_levels.filter (fun l => !l.filled) with
    | nil =>
      have hn : trade.get_next_unfilled_level = none := by
        rw [Trade.get_next_unfilled_level, find_unfilled_eq_filter_head, hu]; rfl
      rw [entryFillLoop_succ]
      simp only [hn, hu]
      simp
    | cons l rest =>
      have hnext : trade.get_next_unfilled_level = some l := by
        rw [Trade.get_next_unfilled_level, find_unfilled_eq_filter_head, hu]; rfl
      rw [entryFillLoop_succ]
      simp only [hnext, reduceIte, String.reduceEq]
      by_cases hhit : candle.low ≤ l.target_price
      · rw [if_pos hhit]
        have hrest : ((trade.add_entry l t l.target_price).entry_levels.filter
            (fun x => !x.filled)) = rest := by
          rw [add_entry_levels]
          exact filter_markFirstUnfilled trade.entry_levels l rest hu
        have hlen : ((trade.add_entry l t l.target_price).entry_levels.filter
            (fun x => !x.filled)).length ≤ n := by
          rw [hrest]
          have hf' := hf
          rw [hu] at hf'
          simpa using Nat.succ_le_succ_iff.mp hf'
        rw [ih _ _ hlen, add_entry_parts, hrest]
        simp [hu, hhit]
      · rw [if_neg hhit]
        simp [hu, hhit]

/-- C2: within one minute candle, `_check_staggered_entry` fills exactly the
maximal prefix of the still-unfilled levels whose targets the candle reaches
(sell: `high >= target`, buy: `low <= target`), each at its own target price
(never at the candle extreme), so levels fill in strict ascending
level-number order and filling stops at the first unreached level. -/
theorem C2_staggered_fills_in_order (trade : Trade) (minute_data : List Row) (t : ℕ) (c : Row)
    (hc : getContractCandle trade minute_data = some c) :
    ((checkStaggeredEntry "sell" trade minute_data t).1.parts =
      trade.parts ++
        ((trade.entry_levels.filter (fun l => !l.filled)).takeWhile
          (fun l => decide (l.target_price ≤ c.high))).map
          (fun l => PositionPart.mk l.level_num t l.target_price l.capital_pct)) ∧
    ((checkStaggeredEntry "buy" trade minute_data t).1.parts =
      trade.parts ++
        ((trade.entry_levels.filter (fun l => !l.filled)).takeWhile
          (fun l => decide (c.low ≤ l.target_price))).map
          (fun l => PositionPart.mk l.level_num t l.target_price l.capital_pct)) ∧
    ((trade.entry_levels.map (fun l => l.level_num)).Pairwise (· < ·) →
      (((trade.entry_levels.filter (fun l => !l.filled)).takeWhile
          (fun l => decide (l.target_price ≤ c.high))).map
          (fun l => l.level_num)).Pairwise (· < ·)) := by
  have hflen : (trade.entry_levels.filter (fun l => !l.filled)).length ≤
      trade.entry_levels.length := List.length_filter_le _ _
  refine ⟨?_, ?_, ?_⟩
  · unfold checkStaggeredEntry
    rw [hc]
    exact entryFillLoop_sell_parts c t trade.entry_levels.length trade [] hflen
  · unfold checkStaggeredEntry
    rw [hc]
    exact entryFillLoop_buy_parts c t trade.entry_levels.length trade [] hflen
  · intro hpw
    have hsub : ((trade.entry_levels.filter (fun l => !l.filled)).takeWhile
        (fun l => decide (l.target_price ≤ c.high))).Sublist trade.entry_levels :=
      (List.takeWhile_sublist _).trans (List.filter_sublist _)
    exact List.Pairwise.sublist (hsub.map (fun l => l.level_num)) hpw

/-- Witness for C2 at the spec's own example: three staggered sell levels at
105/110/115 from base 100 and a candle with high 120 — all three fill, in
order, each at its own target. -/
theorem C2_staggered_fills_in_order_witness :
    (checkStaggeredEntry "sell" threeLevelTrade [candle120] 600).1.parts =
      threeLevelTrade.parts ++
        ((threeLevelTrade.entry_levels.filter (fun l => !l.filled)).takeWhile
          (fun l => decide (l.target_price ≤ candle120.high))).map
          (fun l => PositionPart.mk l.level_num 600 l.target_price l.capital_pct) :=
  (C2_staggered_fills_in_order threeLevelTrade [candle120] 600 candle120 (by with_unfolding_all rfl)).1

end Backtest

namespace Backtest

theorem rsiLoop_eq_wilder (p : ℕ) (closes : List ℚ) :
    ∀ (k m : ℕ),
      rsiLoop p closes (wilderGain p closes m) (wilderLoss p closes m)
          (p + m + 1) k =
        (List.range k).map
          (fun j => rsiOf (wilderGain p closes (m + j + 1))
            (wilderLoss p closes (m + j + 1))) := by
  intro k
  induction k with
  | zero => intro m; rfl
  | succ q ih =>
    intro m
    rw [rsiLoop]
    have hg : (wilderGain p closes m * ((p : ℚ) - 1) +
        rsiGain closes (p + m + 1)) / (p : ℚ) = wilderGain p closes (m + 1) := by
      rw [wilderGain]
    have hl : (wilderLoss p closes m * ((p : ℚ) - 1) +
        rsiLoss closes (p + m + 1)) / (p : ℚ) = wilderLoss p closes (m + 1) := by
      rw [wilderLoss]
    rw [hg, hl]
    have hstep : p + m + 1 + 1 = p + (m + 1) + 1 := by omega
    rw [hstep, ih (m + 1), List.range_succ_eq_map, List.map_cons, List.map_map]
    refine congrArg₂ _ (by norm_num) ?_
    refine List.map_congr_left (fun j hj => ?_)
    have h1 : m + 1 + j + 1 = m + (j + 1) + 1 := by omega
    simp [Function.comp, h1]

end Backtest

namespace Backtest

/-- C8: `RSI.calculate` is undefined (`none`) for the first `period` bars and
at every later bar equals Wilder's reference recurrence — averages seeded by
the simple mean of the first `period` signed changes, then
`avg = (avg*(period-1) + current)/period` for gains and losses separately,
with RSI = 100 exactly when the average loss is zero and
`100 - 100/(1 + avg_gain/avg_loss)` otherwise. -/
theorem C8_rsi_matches_wilder_recurrence (p : ℕ) (closes : List ℚ) (_hp : 1 ≤ p) :
    rsiCalculate p closes = (List.range closes.length).map (rsiRef p closes) := by
  by_cases hn : closes.length < p + 1
  · rw [rsiCalculate, if_pos hn]
    symm
    rw [List.eq_replicate_iff]
    refine ⟨by simp, ?_⟩
    intro b hb
    simp only [List.mem_map, List.mem_range] at hb
    obtain ⟨i, hi, rfl⟩ := hb
    rw [rsiRef, if_pos]
    left
    omega
  · rw [rsiCalculate, if_neg hn]
    push_neg at hn
    have hloop := rsiLoop_eq_wilder p closes (closes.length - (p + 1)) 0
    simp only [Nat.add_zero, Nat.zero_add] at hloop
    show List.replicate p none ++
        List.map some (rsiOf (wilderGain p closes 0) (wilderLoss p closes 0) ::
          rsiLoop p closes (wilderGain p closes 0) (wilderLoss p closes 0)
            (p + 1) (closes.length - (p + 1))) =
      List.map (rsiRef p closes) (List.range closes.length)
    rw [hloop]
    have hnpq : closes.length = p + (1 + (closes.length - (p + 1))) := by omega
    conv_rhs => rw [hnpq, List.range_add]
    rw [List.map_append, List.map_map]
    congr 1
    · symm
      rw [List.eq_replicate_iff]
      refine ⟨by simp, ?_⟩
      intro b hb
      simp only [List.mem_map, List.mem_range] at hb
      obtain ⟨i, hi, rfl⟩ := hb
      rw [rsiRef, if_pos]
      left
      exact hi
    · rw [show 1 + (closes.length - (p + 1)) = (closes.length - (p + 1)) + 1 by omega,
          List.range_succ_eq_map, List.map_cons, List.map_map, List.map_cons,
          List.map_map]
      congr 1
      · show some (rsiOf (wilderGain p closes 0) (wilderLoss p closes 0)) =
          rsiRef p closes (p + 0)
        have hcond : ¬(p + 0 < p ∨ closes.length ≤ p + 0) := by omega
        rw [rsiRef, if_neg hcond]
        simp
      · refine List.map_congr_left (fun j hj => ?_)
        simp only [List.mem_range] at hj
        show some (rsiOf (wilderGain p closes (j + 1)) (wilderLoss p closes (j + 1))) =
          rsiRef p closes (p + (j + 1))
        have hcond : ¬(p + (j + 1) < p ∨ closes.length ≤ p + (j + 1)) := by omega
        have hidx : p + (j + 1) - p = j + 1 := by omega
        rw [rsiRef, if_neg hcond, hidx]

/-- Witness for C8 at a concrete input: period 2 over five bars. -/
theorem C8_rsi_matches_wilder_recurrence_witness :
    rsiCalculate 2 [1, 2, 3, 4, 2] =
      (List.range ([1, 2, 3, 4, 2] : List ℚ).length).map (rsiRef 2 [1, 2, 3, 4, 2]) :=
  C8_rsi_matches_wilder_recurrence 2 [1, 2, 3, 4, 2] (by decide)

end Backtest

namespace Backtest

theorem goodActive_init (signal_time : ℕ) (base_price : ℚ) (option_type : String)
    (strike : ℚ) (expiry_type : String) (expiry_code : ℤ)
    (instrument : String) (direction : String)
    (cfgs : List LevelCfg) (lot_size : ℕ)
    (hcap : ∀ lc ∈ cfgs, 0 < lc.capital_pct) :
    GoodActive (Trade.init signal_time base_price option_type strike
      expiry_type expiry_code instrument direction cfgs lot_size) := by
  constructor
  · intro l hl
    simp only [Trade.init, List.mem_map] at hl
    obtain ⟨p, hp, rfl⟩ := hl
    have hmem := List.mem_map_of_mem Prod.snd hp
    rw [List.enum_map_snd] at hmem
    exact hcap p.2 hmem
  · intro pt hpt
    simp [Trade.init] at hpt

theorem mem_markFirstUnfilled_capital (L : List EntryLevel)
    (h : ∀ l ∈ L, 0 < l.capital_pct) :
    ∀ l ∈ markFirstUnfilled L, 0 < l.capital_pct := by
  induction L with
  | nil => intro l hl; simp [markFirstUnfilled] at hl
  | cons a as ih =>
    intro l hl
    by_cases ha : a.filled
    · rw [markFirstUnfilled, if_pos ha] at hl
      rcases List.mem_cons.mp hl with rfl | hl
      · exact h _ (List.mem_cons_self _ _)
      · exact ih (fun x hx => h x (List.mem_cons_of_mem a hx)) l hl
    · rw [markFirstUnfilled, if_neg ha] at hl
      rcases List.mem_cons.mp hl with rfl | hl
      · simpa using h a (List.mem_cons_self _ _)
      · exact h l (List.mem_cons_of_mem a hl)

theorem goodActive_add_entry (tr : Trade) (lvl : EntryLevel) (tm : ℕ) (price : ℚ)
    (hg : GoodActive tr) (hlvl : lvl ∈ tr.entry_levels) :
    GoodActive (tr.add_entry lvl tm price) := by
  obtain ⟨h1, h2⟩ := hg
  constructor
  · intro l hl
    rw [add_entry_levels] at hl
    exact mem_markFirstUnfilled_capital tr.entry_levels h1 l hl
  · intro pt hpt
    rw [add_entry_parts] at hpt
    rcases List.mem_append.mp hpt with hx | hx
    · exact h2 pt hx
    · rcases List.mem_singleton.mp hx with rfl
      exact h1 lvl hlvl

theorem avg_isSome_of_goodActive (tr : Trade) (hg : GoodActive tr)
    (hp : tr.parts ≠ []) : tr.get_avg_entry_price.isSome = true := by
  rw [Trade.get_avg_entry_price]
  have hne : tr.parts.isEmpty = false := by
    cases hq : tr.parts with
    | nil => exact absurd hq hp
    | cons x xs => rfl
  rw [hne]
  simp only [Bool.false_eq_true, if_false]
  have hpos : 0 < (tr.parts.map (fun p => p.capital_pct)).sum := by
    apply List.sum_pos
    · intro x hx
      obtain ⟨pt, hpt, rfl⟩ := List.mem_map.mp hx
      exact hg.2 pt hpt
    · simp [hp]
  rw [if_pos hpos]
  rfl

theorem closedOk_close_trade (tr : Trade) (tm : ℕ) (price : Option ℚ) (r : String)
    (hp : tr.parts ≠ []) (hprice : price.isSome = true) :
    ClosedOk (tr.close_trade tm price r) := by
  have hne : tr.parts.isEmpty = false := by
    cases hq : tr.parts with
    | nil => exact absurd hq hp
    | cons x xs => rfl
  have hcf := close_trade_fields tr hne tm price r
  refine ⟨?_, hcf.2.2.2.1, ?_, ?_, ?_⟩
  · rw [hcf.2.2.2.2]; exact hp
  · rw [hcf.2.2.1]; rfl
  · rw [hcf.2.1]; exact hprice
  · rw [hcf.1]; rfl

end Backtest

namespace Backtest

theorem checkExit_cases (cfg : EngineCfg) (tr : Trade) (md dd : List Row)
    (t : ℕ) (iet : Bool) (hg : GoodActive tr) :
    ((checkExit cfg tr md dd t iet).2.1 = false ∧
      (checkExit cfg tr md dd t iet).1 = tr) ∨
    ((checkExit cfg tr md dd t iet).2.1 = true ∧
      ClosedOk (checkExit cfg tr md dd t iet).1) := by
  cases hpos : tr.has_position with
  | false =>
    left
    simp [checkExit, hpos]
  | true =>
    have hp : tr.parts ≠ [] := by
      intro hnil
      rw [Trade.has_position, hnil] at hpos
      simp at hpos
    simp only [checkExit, hpos, Bool.not_true, Bool.false_eq_true, if_false]
    cases hcan : getContractCandle tr md with
    | none =>
      cases iet with
      | false => left; exact ⟨by trivial, by trivial⟩
      | true =>
        right
        cases hlast : (dd.filter (fun r =>
            contractMatch tr r && decide (r.time_only ≤ cfg.exit_time))).getLast? with
        | some lc =>
          simp only [hlast]
          exact ⟨by trivial, closedOk_close_trade tr t (some lc.close) "EOD" hp rfl⟩
        | none =>
          simp only [hlast]
          exact ⟨by trivial, closedOk_close_trade tr t tr.get_avg_entry_price "EOD" hp
            (avg_isSome_of_goodActive tr hg hp)⟩
    | some candle =>
      cases havg : tr.get_avg_entry_price with
      | none => left; exact ⟨by trivial, by trivial⟩
      | some a =>
        cases hhit : (if cfg.direction = "sell" then
            if a * (1 + cfg.stop_loss_pct / 100) ≤ candle.high then
              some ("STOP_LOSS", a * (1 + cfg.stop_loss_pct / 100))
            else if candle.low ≤ a * (1 - cfg.target_pct / 100) then
              some ("TARGET", a * (1 - cfg.target_pct / 100))
            else none
          else
            if candle.low ≤ a * (1 - cfg.stop_loss_pct / 100) then
              some ("STOP_LOSS", a * (1 - cfg.stop_loss_pct / 100))
            else if a * (1 + cfg.target_pct / 100) ≤ candle.high then
              some ("TARGET", a * (1 + cfg.target_pct / 100))
            else none) with
        | none =>
          simp only [hhit]
          cases iet with
          | false => left; exact ⟨by trivial, by trivial⟩
          | true =>
            right
            exact ⟨by trivial, closedOk_close_trade tr t (some candle.close) "EOD" hp rfl⟩
        | some rp =>
          simp only [hhit]
          right
          exact ⟨by trivial, closedOk_close_trade tr t (some rp.2) rp.1 hp rfl⟩

end Backtest

namespace Backtest

theorem goodActive_entryFillLoop (d : String) (candle : Row) (t : ℕ) :
    ∀ (fuel : ℕ) (tr : Trade) (events : List String), GoodActive tr →
      GoodActive (entryFillLoop d candle t fuel tr events).1 := by
  intro fuel
  induction fuel with
  | zero => intro tr events hg; exact hg
  | succ n ih =>
    intro tr events hg
    rw [entryFillLoop_succ]
    split
    · exact hg
    · rename_i lvl heq
      have hlvl : lvl ∈ tr.entry_levels := List.mem_of_find?_eq_some heq
      split
      · split
        · exact ih _ _ (goodActive_add_entry tr lvl t lvl.target_price hg hlvl)
        · exact hg
      · split
        · exact ih _ _ (goodActive_add_entry tr lvl t lvl.target_price hg hlvl)
        · exact hg

theorem goodActive_checkStaggeredEntry (d : String) (tr : Trade)
    (md : List Row) (t : ℕ) (hg : GoodActive tr) :
    GoodActive (checkStaggeredEntry d tr md t).1 := by
  unfold checkStaggeredEntry
  cases hc : getContractCandle tr md with
  | none => exact hg
  | some candle => exact goodActive_entryFillLoop d candle t _ tr [] hg

theorem eodCloseTrade_cases (cfg : EngineCfg) (tr : Trade) (dd : List Row)
    (date : ℕ) (hg : GoodActive tr) :
    (eodCloseTrade cfg tr dd date).2.1 = false ∨
    ((eodCloseTrade cfg tr dd date).2.1 = true ∧
      ClosedOk (eodCloseTrade cfg tr dd date).1) := by
  cases hpos : tr.has_position with
  | false => left; simp [eodCloseTrade, hpos]
  | true =>
    have hp : tr.parts ≠ [] := by
      intro hnil
      rw [Trade.has_position, hnil] at hpos
      simp at hpos
    right
    simp only [eodCloseTrade, hpos, if_true]
    cases hlast : (dd.filter (fun r =>
        contractMatch tr r && decide (r.time_only ≤ cfg.exit_time))).getLast? with
    | some lr =>
      simp only [hlast]
      exact ⟨by trivial, closedOk_close_trade tr lr.dt (some lr.close) "EOD" hp rfl⟩
    | none =>
      simp only [hlast]
      exact ⟨by trivial, closedOk_close_trade tr (mkTs date cfg.exit_time)
        tr.get_avg_entry_price "EOD" hp (avg_isSome_of_goodActive tr hg hp)⟩

theorem entryPhase_props (cfg : EngineCfg) (st : DayState) (md : List Row)
    (t : ℕ) (iet : Bool) (hinv : InvState st) :
    InvState (entryPhase cfg st md t iet) ∧
    (entryPhase cfg st md t iet).trades = st.trades ∧
    (entryPhase cfg st md t iet).day_trade_count = st.day_trade_count := by
  obtain ⟨hce, hpe, htr⟩ := hinv
  unfold entryPhase
  cases iet with
  | true => exact ⟨⟨hce, hpe, htr⟩, rfl, rfl⟩
  | false =>
    simp only [Bool.false_eq_true, if_false]
    cases hA : st.active_ce with
    | none =>
      dsimp only
      cases hB : st.active_pe with
      | none => exact ⟨⟨hce, hpe, htr⟩, rfl, rfl⟩
      | some trp =>
        dsimp only
        by_cases hs2 : trp.status = "WAITING_ENTRY" ∨ trp.status = "PARTIAL_POSITION"
        · rw [if_pos hs2]
          refine ⟨⟨fun x hx => hce x hx, fun x hx => ?_, htr⟩, rfl, rfl⟩
          injection hx with hx
          subst hx
          exact goodActive_checkStaggeredEntry cfg.direction trp md t (hpe trp hB)
        · rw [if_neg hs2]
          exact ⟨⟨hce, hpe, htr⟩, rfl, rfl⟩
    | some trc =>
      dsimp only
      by_cases hs : trc.status = "WAITING_ENTRY" ∨ trc.status = "PARTIAL_POSITION"
      · rw [if_pos hs]
        dsimp only
        cases hB : st.active_pe with
        | none =>
          refine ⟨⟨fun x hx => ?_, fun x hx => by simp at hx, htr⟩, rfl, rfl⟩
          injection hx with hx
          subst hx
          exact goodActive_checkStaggeredEntry cfg.direction trc md t (hce trc hA)
        | some trp =>
          dsimp only
          by_cases hs2 : trp.status = "WAITING_ENTRY" ∨ trp.status = "PARTIAL_POSITION"
          · rw [if_pos hs2]
            refine ⟨⟨fun x hx => ?_, fun x hx => ?_, htr⟩, rfl, rfl⟩
            · injection hx with hx
              subst hx
              exact goodActive_checkStaggeredEntry cfg.direction trc md t (hce trc hA)
            · injection hx with hx
              subst hx
              exact goodActive_checkStaggeredEntry cfg.direction trp md t (hpe trp hB)
          · rw [if_neg hs2]
            refine ⟨⟨fun x hx => ?_, fun x hx => ?_, htr⟩, rfl, rfl⟩
            · injection hx with hx
              subst hx
              exact goodActive_checkStaggeredEntry cfg.direction trc md t (hce trc hA)
            · injection hx with hx
              subst hx
              exact hpe trp hB
      · rw [if_neg hs]
        cases hB : st.active_pe with
        | none => exact ⟨⟨hce, hpe, htr⟩, rfl, rfl⟩
        | some trp =>
          dsimp only
          by_cases hs2 : trp.status = "WAITING_ENTRY" ∨ trp.status = "PARTIAL_POSITION"
          · rw [if_pos hs2]
            refine ⟨⟨fun x hx => hce x hx, fun x hx => ?_, htr⟩, rfl, rfl⟩
            injection hx with hx
            subst hx
            exact goodActive_checkStaggeredEntry cfg.direction trp md t (hpe trp hB)
          · rw [if_neg hs2]
            exact ⟨⟨hce, hpe, htr⟩, rfl, rfl⟩

end Backtest

namespace Backtest

theorem exitPhase_props (cfg : EngineCfg) (st : DayState) (md dd : List Row)
    (t : ℕ) (iet : Bool) (hinv : InvState st) :
    InvState (exitPhase cfg st md dd t iet) ∧
    (exitPhase cfg st md dd t iet).day_trade_count = st.day_trade_count := by
  obtain ⟨hce, hpe, htr⟩ := hinv
  unfold exitPhase
  cases hA : st.active_ce with
  | none =>
    try dsimp only
    cases hB : st.active_pe with
    | none => exact ⟨⟨hce, hpe, htr⟩, by trivial⟩
    | some trp =>
      try dsimp only
      rcases checkExit_cases cfg trp md dd t iet (hpe trp hB) with ⟨hcl, heq⟩ | ⟨hcl, hok⟩
      · rw [hcl]
        simp only [Bool.false_eq_true, if_false]
        refine ⟨⟨fun x hx => hce x hx, fun x hx => ?_, htr⟩, by trivial⟩
        injection hx with hx
        subst hx
        rw [heq]
        exact hpe trp hB
      · rw [hcl]
        simp only [if_true]
        refine ⟨⟨fun x hx => hce x hx, fun x hx => by simp at hx, fun x hx => ?_⟩, by trivial⟩
        rcases List.mem_append.mp hx with hx | hx
        · exact htr x hx
        · rcases List.mem_singleton.mp hx with rfl
          exact hok
  | some trc =>
    try dsimp only
    rcases checkExit_cases cfg trc md dd t iet (hce trc hA) with ⟨hcl, heq⟩ | ⟨hcl, hok⟩
    · rw [hcl]
      simp only [Bool.false_eq_true, if_false]
      try dsimp only
      cases hB : st.active_pe with
      | none =>
        refine ⟨⟨fun x hx => ?_, fun x hx => by simp at hx, htr⟩, by trivial⟩
        injection hx with hx
        subst hx
        rw [heq]
        exact hce trc hA
      | some trp =>
        try dsimp only
        rcases checkExit_cases cfg trp md dd t iet (hpe trp hB) with ⟨hcl2, heq2⟩ | ⟨hcl2, hok2⟩
        · rw [hcl2]
          simp only [Bool.false_eq_true, if_false]
          refine ⟨⟨fun x hx => ?_, fun x hx => ?_, htr⟩, by trivial⟩
          · injection hx with hx
            subst hx
            rw [heq]
            exact hce trc hA
          · injection hx with hx
            subst hx
            rw [heq2]
            exact hpe trp hB
        · rw [hcl2]
          simp only [if_true]
          refine ⟨⟨fun x hx => ?_, fun x hx => by simp at hx, fun x hx => ?_⟩, by trivial⟩
          · injection hx with hx
            subst hx
            rw [heq]
            exact hce trc hA
          · rcases List.mem_append.mp hx with hx | hx
            · exact htr x hx
            · rcases List.mem_singleton.mp hx with rfl
              exact hok2
    · rw [hcl]
      simp only [if_true]
      try dsimp only
      cases hB : st.active_pe with
      | none =>
        refine ⟨⟨fun x hx => by simp at hx, fun x hx => by simp at hx, fun x hx => ?_⟩, by trivial⟩
        rcases List.mem_append.mp hx with hx | hx
        · exact htr x hx
        · rcases List.mem_singleton.mp hx with rfl
          exact hok
      | some trp =>
        try dsimp only
        rcases checkExit_cases cfg trp md dd t iet (hpe trp hB) with ⟨hcl2, heq2⟩ | ⟨hcl2, hok2⟩
        · rw [hcl2]
          simp only [Bool.false_eq_true, if_false]
          refine ⟨⟨fun x hx => by simp at hx, fun x hx => ?_, fun x hx => ?_⟩, by trivial⟩
          · injection hx with hx
            subst hx
            rw [heq2]
            exact hpe trp hB
          · rcases List.mem_append.mp hx with hx | hx
            · exact htr x hx
            · rcases List.mem_singleton.mp hx with rfl
              exact hok
        · rw [hcl2]
          simp only [if_true]
          refine ⟨⟨fun x hx => by simp at hx, fun x hx => by simp at hx, fun x hx => ?_⟩, by trivial⟩
          rcases List.mem_append.mp hx with hx | hx
          · rcases List.mem_append.mp hx with hx | hx
            · exact htr x hx
            · rcases List.mem_singleton.mp hx with rfl
              exact hok
          · rcases List.mem_singleton.mp hx with rfl
            exact hok2

end Backtest

namespace Backtest

theorem signalStep_props (cfg : EngineCfg) (t : ℕ) (st : DayState) (row : Row)
    (s1 : DayState)
    (hcap : ∀ lc ∈ cfg.entry_levels_config, 0 < lc.capital_pct)
    (hinv : InvState st) (h : signalStep cfg t st row = .ok s1) :
    InvState s1 ∧ s1.trades = st.trades ∧
    s1.day_trade_count + freeSlots s1 ≤ st.day_trade_count + freeSlots st := by
  obtain ⟨hce, hpe, htr⟩ := hinv
  unfold signalStep at h
  cases hsig : checkSignal row cfg.signal_conditions cfg.signal_logic with
  | error e => rw [hsig] at h; simp [Bind.bind, Except.bind] at h
  | ok fr =>
    rw [hsig] at h
    simp only [Bind.bind, Except.bind] at h
    by_cases hf : fr.1 = true
    · simp only [hf, Bool.not_true, Bool.false_eq_true, if_false] at h
      by_cases hopt : row.option_type == "CE"
      · rw [if_pos hopt] at h
        cases hA : st.active_ce with
        | none =>
          rw [hA] at h
          simp only [pure, Except.pure, Except.ok.injEq] at h
          subst h
          refine ⟨⟨fun x hx => ?_, fun x hx => hpe x hx, htr⟩, rfl, ?_⟩
          · injection hx with hx
            subst hx
            exact goodActive_init t row.close "CE" row.strike row.expiry_type
              row.expiry_code cfg.instrument cfg.direction
              cfg.entry_levels_config cfg.lot_size hcap
          · unfold freeSlots
            rw [hA]
            simp
            omega
        | some trc =>
          rw [hA] at h
          simp only [pure, Except.pure, Except.ok.injEq] at h
          subst h
          exact ⟨⟨hce, hpe, htr⟩, rfl, le_refl _⟩
      · rw [if_neg hopt] at h
        by_cases hopt2 : row.option_type == "PE"
        · rw [if_pos hopt2] at h
          cases hA : st.active_pe with
          | none =>
            rw [hA] at h
            simp only [pure, Except.pure, Except.ok.injEq] at h
            subst h
            refine ⟨⟨fun x hx => hce x hx, fun x hx => ?_, htr⟩, rfl, ?_⟩
            · injection hx with hx
              subst hx
              exact goodActive_init t row.close "PE" row.strike row.expiry_type
                row.expiry_code cfg.instrument cfg.direction
                cfg.entry_levels_config cfg.lot_size hcap
            · unfold freeSlots
              rw [hA]
              simp
              omega
          | some trp =>
            rw [hA] at h
            simp only [pure, Except.pure, Except.ok.injEq] at h
            subst h
            exact ⟨⟨hce, hpe, htr⟩, rfl, le_refl _⟩
        · rw [if_neg hopt2] at h
          simp only [pure, Except.pure, Except.ok.injEq] at h
          subst h
          exact ⟨⟨hce, hpe, htr⟩, rfl, le_refl _⟩
    · simp only [Bool.not_eq_true] at hf
      simp only [hf, Bool.not_false, if_true] at h
      simp only [pure, Except.pure, Except.ok.injEq] at h
      subst h
      exact ⟨⟨hce, hpe, htr⟩, rfl, le_refl _⟩

theorem signalFold_props (cfg : EngineCfg) (t : ℕ)
    (hcap : ∀ lc ∈ cfg.entry_levels_config, 0 < lc.capital_pct) :
    ∀ (rows : List Row) (st st' : DayState),
      rows.foldlM (signalStep cfg t) st = .ok st' →
      InvState st →
      InvState st' ∧ st'.trades = st.trades ∧
      st'.day_trade_count + freeSlots st' ≤ st.day_trade_count + freeSlots st := by
  intro rows
  induction rows with
  | nil =>
    intro st st' h hinv
    simp only [List.foldlM_nil, pure, Except.pure, Except.ok.injEq] at h
    subst h
    exact ⟨hinv, rfl, le_refl _⟩
  | cons r rs ih =>
    intro st st' h hinv
    rw [List.foldlM_cons] at h
    cases hstep : signalStep cfg t st r with
    | error e => rw [hstep] at h; simp [Bind.bind, Except.bind] at h
    | ok s1 =>
      rw [hstep] at h
      simp only [Bind.bind, Except.bind] at h
      obtain ⟨hinv1, htr1, hc1⟩ := signalStep_props cfg t st r s1 hcap hinv hstep
      obtain ⟨hinv2, htr2, hc2⟩ := ih s1 st' h hinv1
      exact ⟨hinv2, htr2.trans htr1, le_trans hc2 hc1⟩

end Backtest

namespace Backtest

theorem processMinute_props (cfg : EngineCfg) (dd : List Row) (st : DayState)
    (minute : ℕ) (st' : DayState)
    (hcap : ∀ lc ∈ cfg.entry_levels_config, 0 < lc.capital_pct)
    (hinv : InvState st)
    (h : processMinute cfg dd st minute = .ok st') :
    InvState st' ∧
    st'.day_trade_count ≤ st.day_trade_count + 2 ∧
    (∀ n, cfg.max_trades_per_day = some n → n ≤ st.day_trade_count →
      st'.day_trade_count = st.day_trade_count) := by
  unfold processMinute at h
  by_cases h1 : minute % 1440 < cfg.entry_time
  · rw [if_pos h1] at h
    simp only [pure, Except.pure, Except.ok.injEq] at h
    subst h
    exact ⟨hinv, by omega, fun n _ _ => rfl⟩
  · rw [if_neg h1] at h
    by_cases h2 : cfg.exit_time < minute % 1440
    · rw [if_pos h2] at h
      simp only [pure, Except.pure, Except.ok.injEq] at h
      subst h
      exact ⟨hinv, by omega, fun n _ _ => rfl⟩
    · rw [if_neg h2] at h
      dsimp only at h
      set iet := decide (cfg.exit_time ≤ minute % 1440) with hiet
      set md := dd.filter (fun r => r.dt == minute) with hmd
      set atm := md.filter (fun r => r.moneyness == "ATM") with hatm
      set limit := (match cfg.max_trades_per_day with
        | some n => decide (n ≤ st.day_trade_count)
        | none => false) with hlimit
      by_cases hgo : (!iet && !limit) = true
      · rw [if_pos hgo] at h
        cases hfold : atm.foldlM (signalStep cfg minute) st with
        | error e => rw [hfold] at h; simp [Bind.bind, Except.bind] at h
        | ok s1 =>
          rw [hfold] at h
          simp only [Bind.bind, Except.bind, pure, Except.pure, Except.ok.injEq] at h
          subst h
          obtain ⟨hinv1, _, hc1⟩ := signalFold_props cfg minute hcap atm st s1 hfold hinv
          obtain ⟨hinv2, htr2, hc2⟩ := entryPhase_props cfg s1 md minute iet hinv1
          obtain ⟨hinv3, hc3⟩ := exitPhase_props cfg
            (entryPhase cfg s1 md minute iet) md dd minute iet hinv2
          refine ⟨hinv3, ?_, ?_⟩
          · rw [hc3, hc2]
            have : freeSlots st ≤ 2 := by
              unfold freeSlots
              split <;> split <;> omega
            omega
          · intro n hn hle
            exfalso
            rw [Bool.and_eq_true] at hgo
            have := hgo.2
            rw [hlimit, hn] at this
            simp at this
            omega
      · rw [if_neg hgo] at h
        simp only [Bind.bind, Except.bind, pure, Except.pure, Except.ok.injEq] at h
        subst h
        obtain ⟨hinv2, htr2, hc2⟩ := entryPhase_props cfg st md minute iet hinv
        obtain ⟨hinv3, hc3⟩ := exitPhase_props cfg
          (entryPhase cfg st md minute iet) md dd minute iet hinv2
        refine ⟨hinv3, ?_, fun n hn hle => ?_⟩
        · rw [hc3, hc2]; omega
        · rw [hc3, hc2]

end Backtest

namespace Backtest

theorem minutesFold_props (cfg : EngineCfg) (dd : List Row)
    (hcap : ∀ lc ∈ cfg.entry_levels_config, 0 < lc.capital_pct) :
    ∀ (minutes : List ℕ) (st st' : DayState),
      minutes.foldlM (processMinute cfg dd) st = .ok st' →
      InvState st →
      InvState st' ∧
      (∀ n, cfg.max_trades_per_day = some n →
        st.day_trade_count ≤ n + 1 → st'.day_trade_count ≤ n + 1) := by
  intro minutes
  induction minutes with
  | nil =>
    intro st st' h hinv
    simp only [List.foldlM_nil, pure, Except.pure, Except.ok.injEq] at h
    subst h
    exact ⟨hinv, fun n _ hle => hle⟩
  | cons m ms ih =>
    intro st st' h hinv
    rw [List.foldlM_cons] at h
    cases hstep : processMinute cfg dd st m with
    | error e => rw [hstep] at h; simp [Bind.bind, Except.bind] at h
    | ok s1 =>
      rw [hstep] at h
      simp only [Bind.bind, Except.bind] at h
      obtain ⟨hinv1, hle1, heq1⟩ := processMinute_props cfg dd st m s1 hcap hinv hstep
      obtain ⟨hinv2, hcnt2⟩ := ih s1 st' h hinv1
      refine ⟨hinv2, fun n hn hle => hcnt2 n hn ?_⟩
      by_cases hc : n ≤ st.day_trade_count
      · rw [heq1 n hn hc]; exact hle
      · omega

theorem processDay_props (cfg : EngineCfg) (trades0 : List Trade)
    (dd : List Row) (date : ℕ) (st' : DayState)
    (hcap : ∀ lc ∈ cfg.entry_levels_config, 0 < lc.capital_pct)
    (htr0 : ∀ tr ∈ trades0, ClosedOk tr)
    (h : processDay cfg trades0 dd date = .ok st') :
    (∀ tr ∈ st'.trades, ClosedOk tr) ∧
    (∀ n, cfg.max_trades_per_day = some n → st'.day_trade_count ≤ n + 1) := by
  unfold processDay at h
  dsimp only at h
  cases hfold : (uniqFirst (dd.map (fun r => r.dt))).foldlM (processMinute cfg dd)
      (DayState.mk none none 0 trades0) with
  | error e => rw [hfold] at h; simp [Bind.bind, Except.bind] at h
  | ok s1 =>
    rw [hfold] at h
    simp only [Bind.bind, Except.bind, pure, Except.pure, Except.ok.injEq] at h
    have hinv0 : InvState (DayState.mk none none 0 trades0) :=
      ⟨fun x hx => by simp at hx, fun x hx => by simp at hx, htr0⟩
    obtain ⟨⟨hce1, hpe1, htr1⟩, hcnt1⟩ := minutesFold_props cfg dd hcap
      (uniqFirst (dd.map (fun r => r.dt)))
      (DayState.mk none none 0 trades0) s1 hfold hinv0
    -- the two EOD blocks
    have key : (∀ tr ∈ st'.trades, ClosedOk tr) ∧
        st'.day_trade_count = s1.day_trade_count := by
      subst h
      cases hA : s1.active_ce with
      | none =>
        dsimp only
        cases hB : s1.active_pe with
        | none => exact ⟨htr1, by trivial⟩
        | some trp =>
          dsimp only
          rcases eodCloseTrade_cases cfg trp dd date (hpe1 trp hB) with hcl | ⟨hcl, hok⟩
          · rw [hcl]
            simp only [Bool.false_eq_true, if_false, List.append_nil]
            exact ⟨htr1, by trivial⟩
          · rw [hcl]
            simp only [if_true]
            refine ⟨fun x hx => ?_, by trivial⟩
            rcases List.mem_append.mp hx with hx | hx
            · exact htr1 x hx
            · rcases List.mem_singleton.mp hx with rfl
              exact hok
      | some trc =>
        dsimp only
        rcases eodCloseTrade_cases cfg trc dd date (hce1 trc hA) with hcl | ⟨hcl, hok⟩
        · rw [hcl]
          simp only [Bool.false_eq_true, if_false, List.append_nil]
          cases hB : s1.active_pe with
          | none => exact ⟨htr1, by trivial⟩
          | some trp =>
            dsimp only
            rcases eodCloseTrade_cases cfg trp dd date (hpe1 trp hB) with hcl2 | ⟨hcl2, hok2⟩
            · rw [hcl2]
              simp only [Bool.false_eq_true, if_false, List.append_nil]
              exact ⟨htr1, by trivial⟩
            · rw [hcl2]
              simp only [if_true]
              refine ⟨fun x hx => ?_, by trivial⟩
              rcases List.mem_append.mp hx with hx | hx
              · exact htr1 x hx
              · rcases List.mem_singleton.mp hx with rfl
                exact hok2
        · rw [hcl]
          simp only [if_true]
          cases hB : s1.active_pe with
          | none =>
            refine ⟨fun x hx => ?_, by trivial⟩
            rcases List.mem_append.mp hx with hx | hx
            · exact htr1 x hx
            · rcases List.mem_singleton.mp hx with rfl
              exact hok
          | some trp =>
            dsimp only
            rcases eodCloseTrade_cases cfg trp dd date (hpe1 trp hB) with hcl2 | ⟨hcl2, hok2⟩
            · rw [hcl2]
              simp only [Bool.false_eq_true, if_false, List.append_nil]
              refine ⟨fun x hx => ?_, by trivial⟩
              rcases List.mem_append.mp hx with hx | hx
              · exact htr1 x hx
              · rcases List.mem_singleton.mp hx with rfl
                exact hok
            · rw [hcl2]
              simp only [if_true]
              refine ⟨fun x hx => ?_, by trivial⟩
              rcases List.mem_append.mp hx with hx | hx
              · rcases List.mem_append.mp hx with hx | hx
                · exact htr1 x hx
                · rcases List.mem_singleton.mp hx with rfl
                  exact hok
              · rcases List.mem_singleton.mp hx with rfl
                exact hok2
    refine ⟨key.1, fun n hn => ?_⟩
    rw [key.2]
    exact hcnt1 n hn (Nat.zero_le _)

theorem run_trades_closed (cfg : EngineCfg)
    (hcap : ∀ lc ∈ cfg.entry_levels_config, 0 < lc.capital_pct) :
    ∀ (dates : List ℕ) (trades0 trades' : List Trade) (df : List Row),
      dates.foldlM (fun trs d => do
        let st ← processDay cfg trs (df.filter (fun r => r.date == d)) d
        pure st.trades) trades0 = .ok trades' →
      (∀ tr ∈ trades0, ClosedOk tr) →
      ∀ tr ∈ trades', ClosedOk tr := by
  intro dates
  induction dates with
  | nil =>
    intro trades0 trades' df h htr0
    simp only [List.foldlM_nil, pure, Except.pure, Except.ok.injEq] at h
    subst h
    exact htr0
  | cons d ds ih =>
    intro trades0 trades' df h htr0
    rw [List.foldlM_cons] at h
    cases hstep : processDay cfg trades0 (df.filter (fun r => r.date == d)) d with
    | error e => rw [hstep] at h; simp [Bind.bind, Except.bind] at h
    | ok s1 =>
      rw [hstep] at h
      simp only [Bind.bind, Except.bind, pure, Except.pure] at h
      obtain ⟨htr1, _⟩ := processDay_props cfg trades0
        (df.filter (fun r => r.date == d)) d s1 hcap htr0 hstep
      exact ih s1.trades trades' df h htr1

end Backtest

namespace Backtest

/-- C9: every trade returned by `run` has at least one filled part, status
CLOSED, and non-null exit time, price and reason — a WAITING_ENTRY trade with
zero parts is discarded and never appears (under the spec's data-model
assumption that configured level capital percentages are positive). -/
theorem C9_returned_trades_are_closed (cfg : EngineCfg)
    (hcap : ∀ lc ∈ cfg.entry_levels_config, 0 < lc.capital_pct)
    (df : List Row) (trades : List Trade) (h : run cfg df = .ok trades) :
    ∀ tr ∈ trades, tr.parts ≠ [] ∧ tr.status = "CLOSED" ∧
      tr.exit_time.isSome = true ∧ tr.exit_price.isSome = true ∧
      tr.exit_reason.isSome = true := by
  unfold run at h
  dsimp only at h
  cases hfold : (uniqFirst (df.map (fun r => r.date))).foldlM (fun trs d => do
      let st ← processDay cfg trs (df.filter (fun r => r.date == d)) d
      pure st.trades) ([] : List Trade) with
  | error e => rw [hfold] at h; simp [Bind.bind, Except.bind] at h
  | ok trs =>
    rw [hfold] at h
    simp only [Bind.bind, Except.bind, pure, Except.pure, Except.ok.injEq] at h
    subst h
    intro tr htr
    exact run_trades_closed cfg hcap (uniqFirst (df.map (fun r => r.date)))
      [] trs df hfold (fun x hx => by simp at hx) tr htr

/-- Witness for C9 at a concrete input: a two-row day that opens and
stop-loss-closes one CE and one PE trade; the first returned trade is a
completed record. -/
theorem C9_returned_trades_are_closed_witness :
    tradeW1.parts ≠ [] ∧ tradeW1.status = "CLOSED" ∧
    tradeW1.exit_time.isSome = true ∧ tradeW1.exit_price.isSome = true ∧
    tradeW1.exit_reason.isSome = true :=
  C9_returned_trades_are_closed capOneCfg
    (by intro lc hlc; simp [capOneCfg] at hlc; rw [hlc]; norm_num)
    [firedRow, firedRowPe] [tradeW1, tradeW2]
    (by with_unfolding_all rfl)
    tradeW1 (List.mem_cons_self _ _)

/-- C7 counterexample: with `max_trades_per_day = 1`, a single minute whose
ATM CE and PE rows both fire creates two trades in one day — the per-minute
cap check is computed before the row loop, so N is exceeded. -/
theorem C7_counterexample_two_trades_one_minute :
    capOneCfg.max_trades_per_day = some 1 ∧
    (processDay capOneCfg [] [firedRow, firedRowPe] 0).map
      (fun st => (st.day_trade_count, st.trades.length)) = .ok (2, 2) :=
  ⟨rfl, by with_unfolding_all rfl⟩

/-- C7 (amended): the day cap is checked once per minute before signal
evaluation, so new trades are constructed only in minutes that start below
the cap and at most one CE plus one PE per minute — hence at most N+1 trades
per day (one above the cap when CE and PE fire in the same minute); and once
the cap is reached the minute still runs the staggered-entry and exit phases
unchanged, so fills and SL/TP/EOD exits of active trades are never blocked. -/
theorem C7_day_cap_amended (cfg : EngineCfg) (n : ℕ)
    (hcap : cfg.max_trades_per_day = some n)
    (hlv : ∀ lc ∈ cfg.entry_levels_config, 0 < lc.capital_pct) :
    (∀ (trades0 : List Trade) (dd : List Row) (date : ℕ) (st' : DayState),
      (∀ tr ∈ trades0, ClosedOk tr) →
      processDay cfg trades0 dd date = .ok st' →
      st'.day_trade_count ≤ n + 1) ∧
    (∀ (dd : List Row) (st : DayState) (minute : ℕ),
      n ≤ st.day_trade_count →
      cfg.entry_time ≤ minute % 1440 → minute % 1440 ≤ cfg.exit_time →
      processMinute cfg dd st minute =
        .ok (exitPhase cfg
          (entryPhase cfg st (dd.filter (fun r => r.dt == minute)) minute
            (decide (cfg.exit_time ≤ minute % 1440)))
          (dd.filter (fun r => r.dt == minute)) dd minute
          (decide (cfg.exit_time ≤ minute % 1440)))) := by
  constructor
  · intro trades0 dd date st' htr0 h
    exact (processDay_props cfg trades0 dd date st' hlv htr0 h).2 n hcap
  · intro dd st minute hge hlo hhi
    unfold processMinute
    rw [if_neg (by omega), if_neg (by omega)]
    dsimp only
    have hlim : (match cfg.max_trades_per_day with
        | some k => decide (k ≤ st.day_trade_count)
        | none => false) = true := by
      rw [hcap]
      simpa using hge
    rw [hlim]
    simp [Bind.bind, Except.bind, pure, Except.pure]

/-- Witness for the amended C7: with cap 1 already reached, the minute still
evaluates entries and exits (and creates nothing). -/
theorem C7_day_cap_amended_witness :
    processMinute capOneCfg [] (DayState.mk none none 1 []) 600 =
      .ok (exitPhase capOneCfg
        (entryPhase capOneCfg (DayState.mk none none 1 [])
          (List.filter (fun r => r.dt == 600) []) 600
          (decide (capOneCfg.exit_time ≤ 600 % 1440)))
        (List.filter (fun r => r.dt == 600) []) [] 600
        (decide (capOneCfg.exit_time ≤ 600 % 1440))) :=
  (C7_day_cap_amended capOneCfg 1 rfl
    (by intro lc hlc; simp [capOneCfg] at hlc; rw [hlc]; norm_num)).2
    [] (DayState.mk none none 1 []) 600 (by decide) (by decide) (by decide)

end Backtest
